import Mathlib

/-!
# Verification of the Semantic Identification & Query Engine

A shallow embedding of the semantic snapshot / semantic query tools
(`sem_snapshot`, `sem_query`) of the chrome-devtools-mcp repository, together
with proofs and refutations of the specified properties.

Modelling conventions:
* JavaScript strings are modelled by Lean `String`; all string operations used
  by the engine (`toLowerCase`, `trim`, `includes`, whitespace collapse,
  decimal printing/parsing) are implemented here on `List Char` so that every
  definition evaluates inside the kernel.  `toLowerCase` is modelled as ASCII
  lower-casing, `\s` as `Char.isWhitespace`; all inputs exercised by the
  concrete theorems are ASCII, where these models are exact.
* `crypto.createHash('sha256')` and `digest('base64url')` are modelled by a
  full executable SHA-256 and base64url implementation over UTF-8 bytes,
  validated below against the FIPS 180-4 test vector.
* `path.posix.join('/', ...segments)` is modelled as `"/" ++ intercalate "/"`,
  which is exact for the segment shape `role ++ "[" ++ i ++ "]"` produced by
  the traversals whenever roles contain no path separators.
* JavaScript numbers appearing in the engine are integers except for the
  match confidence.  The confidence pipeline
  `Math.round(Math.min(score/100, 1) * 100) / 100` is modelled over `Rat`;
  for an integer score this equals `(min score 100) / 100` exactly, and the
  double-precision evaluation of the same pipeline rounds to the same
  rational, so the model is exact.
* `parseInt(s, 10)` returning `NaN` is modelled by `Option Int` (`none` = NaN),
  and `Array.prototype.slice` index conversion (`ToIntegerOrInfinity`, with
  `NaN ↦ 0` and negative indices relative to the end) is modelled explicitly.
-/

set_option maxRecDepth 100000

namespace Sem

/-! ## Byte-level primitives: UTF-8, SHA-256, base64url -/

/-- Truncate to a 32-bit word, `x % 2^32`. -/
def w32 (n : Nat) : Nat := n % 4294967296

/-- Right rotation of a 32-bit word. -/
def rotr (x k : Nat) : Nat := w32 ((x >>> k) ||| (x <<< (32 - k)))

/-- Bitwise complement of a 32-bit word. -/
def wnot (x : Nat) : Nat := 4294967295 - x

def shaCh (x y z : Nat) : Nat := (x &&& y) ^^^ (wnot x &&& z)

def shaMaj (x y z : Nat) : Nat := (x &&& y) ^^^ (x &&& z) ^^^ (y &&& z)

def bSig0 (x : Nat) : Nat := rotr x 2 ^^^ rotr x 13 ^^^ rotr x 22

def bSig1 (x : Nat) : Nat := rotr x 6 ^^^ rotr x 11 ^^^ rotr x 25

def sSig0 (x : Nat) : Nat := rotr x 7 ^^^ rotr x 18 ^^^ (x >>> 3)

def sSig1 (x : Nat) : Nat := rotr x 17 ^^^ rotr x 19 ^^^ (x >>> 10)

/-- The SHA-256 round constants (FIPS 180-4, written in decimal). -/
def shaK : List Nat :=
  [1116352408, 1899447441, 3049323471, 3921009573,
   961987163, 1508970993, 2453635748, 2870763221,
   3624381080, 310598401, 607225278, 1426881987,
   1925078388, 2162078206, 2614888103, 3248222580,
   3835390401, 4022224774, 264347078, 604807628,
   770255983, 1249150122, 1555081692, 1996064986,
   2554220882, 2821834349, 2952996808, 3210313671,
   3336571891, 3584528711, 113926993, 338241895,
   666307205, 773529912, 1294757372, 1396182291,
   1695183700, 1986661051, 2177026350, 2456956037,
   2730485921, 2820302411, 3259730800, 3345764771,
   3516065817, 3600352804, 4094571909, 275423344,
   430227734, 506948616, 659060556, 883997877,
   958139571, 1322822218, 1537002063, 1747873779,
   1955562222, 2024104815, 2227730452, 2361852424,
   2428436474, 2756734187, 3204031479, 3329325298]

/-- SHA-256 working state (eight 32-bit words). -/
structure H8 where
  a : Nat
  b : Nat
  c : Nat
  d : Nat
  e : Nat
  f : Nat
  g : Nat
  h : Nat

def shaInit : H8 :=
  ⟨1779033703, 3144134277, 1013904242, 2773480762,
   1359893119, 2600822924, 528734635, 1541459225⟩

/-- One SHA-256 compression round. -/
def shaStep (st : H8) (kw : Nat × Nat) : H8 :=
  let t1 := w32 (st.h + bSig1 st.e + shaCh st.e st.f st.g + kw.1 + kw.2)
  let t2 := w32 (bSig0 st.a + shaMaj st.a st.b st.c)
  ⟨w32 (t1 + t2), st.a, st.b, st.c, w32 (st.d + t1), st.e, st.f, st.g⟩

/-- Extend a 16-word message block to the 64-word schedule (`k` extension steps). -/
def buildW (ws : List Nat) : Nat → List Nat
  | 0 => ws
  | k + 1 =>
    let n := ws.length
    let v := w32 (sSig1 (ws.getD (n - 2) 0) + ws.getD (n - 7) 0 +
                  sSig0 (ws.getD (n - 15) 0) + ws.getD (n - 16) 0)
    buildW (ws ++ [v]) k

/-- Big-endian 4-byte groups to 32-bit words. -/
def toWords : List Nat → List Nat
  | b0 :: b1 :: b2 :: b3 :: rest =>
    ((b0 <<< 24) ||| (b1 <<< 16) ||| (b2 <<< 8) ||| b3) :: toWords rest
  | _ => []

/-- Big-endian bytes of an `n`-bit... of a number, `count` bytes wide. -/
def beBytes (count n : Nat) : List Nat :=
  (List.range count).map fun i => (n >>> ((count - 1 - i) * 8)) &&& 255

/-- SHA-256 message padding over a byte list. -/
def shaPad (msg : List Nat) : List Nat :=
  let len := msg.length
  let r := (len + 1) % 64
  let k := (120 - r) % 64
  msg ++ [0x80] ++ List.replicate k 0 ++ beBytes 8 (len * 8)

/-- Split a byte list into 64-byte chunks (fuel-driven, fuel ≥ length). -/
def chunksGo : Nat → List Nat → List (List Nat)
  | 0, _ => []
  | _, [] => []
  | fuel + 1, l => l.take 64 :: chunksGo fuel (l.drop 64)

/-- Process one 64-byte chunk. -/
def shaChunk (st : H8) (chunk : List Nat) : H8 :=
  let ws := buildW (toWords chunk) 48
  let t := (shaK.zip ws).foldl shaStep st
  ⟨w32 (st.a + t.a), w32 (st.b + t.b), w32 (st.c + t.c), w32 (st.d + t.d),
   w32 (st.e + t.e), w32 (st.f + t.f), w32 (st.g + t.g), w32 (st.h + t.h)⟩

/-- SHA-256 of a byte list, as the 32-byte digest. -/
def sha256 (msg : List Nat) : List Nat :=
  let padded := shaPad msg
  let st := (chunksGo padded.length padded).foldl shaChunk shaInit
  beBytes 4 st.a ++ beBytes 4 st.b ++ beBytes 4 st.c ++ beBytes 4 st.d ++
  beBytes 4 st.e ++ beBytes 4 st.f ++ beBytes 4 st.g ++ beBytes 4 st.h

/-- UTF-8 encoding of one scalar value. -/
def utf8Bytes (c : Char) : List Nat :=
  let n := c.toNat
  if n < 0x80 then [n]
  else if n < 0x800 then [0xC0 ||| (n >>> 6), 0x80 ||| (n &&& 63)]
  else if n < 0x10000 then
    [0xE0 ||| (n >>> 12), 0x80 ||| ((n >>> 6) &&& 63), 0x80 ||| (n &&& 63)]
  else
    [0xF0 ||| (n >>> 18), 0x80 ||| ((n >>> 12) &&& 63),
     0x80 ||| ((n >>> 6) &&& 63), 0x80 ||| (n &&& 63)]

/-- UTF-8 bytes of a string. -/
def strUtf8 (s : String) : List Nat :=
  s.data.foldr (fun c acc => utf8Bytes c ++ acc) []

/-- The base64url alphabet. -/
def b64Char (n : Nat) : Char :=
  if n < 26 then Char.ofNat (65 + n)
  else if n < 52 then Char.ofNat (97 + (n - 26))
  else if n < 62 then Char.ofNat (48 + (n - 52))
  else if n = 62 then '-'
  else '_'

/-- Unpadded base64url encoding of a byte list (node's `digest('base64url')`). -/
def b64urlEncode : List Nat → List Char
  | b0 :: b1 :: b2 :: rest =>
    b64Char (b0 >>> 2) :: b64Char (((b0 &&& 3) <<< 4) ||| (b1 >>> 4)) ::
    b64Char (((b1 &&& 15) <<< 2) ||| (b2 >>> 6)) :: b64Char (b2 &&& 63) ::
    b64urlEncode rest
  | [b0, b1] =>
    [b64Char (b0 >>> 2), b64Char (((b0 &&& 3) <<< 4) ||| (b1 >>> 4)),
     b64Char (((b1 &&& 15) <<< 2))]
  | [b0] =>
    [b64Char (b0 >>> 2), b64Char ((b0 &&& 3) <<< 4)]
  | [] => []

/-- `base64url(sha256(utf8 s))` as a string. -/
def sha256B64url (s : String) : String :=
  ⟨b64urlEncode (sha256 (strUtf8 s))⟩

/-! ## JavaScript string model -/

/-- ASCII lower-casing of one character (model of `toLowerCase`). -/
def lowChar (c : Char) : Char :=
  if 'A' ≤ c && c ≤ 'Z' then Char.ofNat (c.toNat + 32) else c

/-- Model of `String.prototype.toLowerCase` (exact on ASCII). -/
def jsLower (s : String) : String := ⟨s.data.map lowChar⟩

/-- Model of the regexp class `\s` and of `trim`'s whitespace set. -/
def isWs (c : Char) : Bool := c.isWhitespace

/-- Model of `String.prototype.trim`. -/
def jsTrim (s : String) : String :=
  ⟨((s.data.dropWhile isWs).reverse.dropWhile isWs).reverse⟩

/-- Whitespace-run collapse, state machine for `replace(/\s+/g, ' ')`.
The flag records whether the previous character was whitespace. -/
def collapseGo : Bool → List Char → List Char
  | _, [] => []
  | prevWs, c :: cs =>
    if isWs c then
      if prevWs then collapseGo true cs else ' ' :: collapseGo true cs
    else c :: collapseGo false cs

/-- Model of `replace(/\s+/g, ' ')`. -/
def collapseWs (l : List Char) : List Char := collapseGo false l

/-- Does `hay` start with needle `n`? -/
def startsL : List Char → List Char → Bool
  | [], _ => true
  | _ :: _, [] => false
  | a :: as, b :: bs => a == b && startsL as bs

/-- Does the haystack contain needle `n` as a contiguous run? -/
def findL (n : List Char) : List Char → Bool
  | [] => n.isEmpty
  | c :: hs => startsL n (c :: hs) || findL n hs

/-- Model of `hay.includes(pat)`. -/
def jsIncludes (hay pat : String) : Bool := findL pat.data hay.data

/-- JavaScript string truthiness: non-empty. -/
def truthy (s : String) : Bool := s ≠ ""

/-! ## Decimal printing and parsing (`Number.prototype.toString`, `parseInt`) -/

def digitCh (d : Nat) : Char := Char.ofNat (48 + d)

/-- Little-endian base-10 digits, fuel-driven (`fuel ≥ n` suffices). -/
def digitsLE : Nat → Nat → List Nat
  | 0, _ => []
  | fuel + 1, n => if n = 0 then [] else n % 10 :: digitsLE fuel (n / 10)

/-- Decimal rendering of a natural number (model of `toString` on integers). -/
def natDec (n : Nat) : String :=
  if n = 0 then "0" else ⟨((digitsLE n n).reverse).map digitCh⟩

/-- Decimal rendering of an integer. -/
def intDec (i : Int) : String :=
  if i < 0 then "-" ++ natDec i.natAbs else natDec i.natAbs

def digitVal (c : Char) : Option Nat :=
  if 48 ≤ c.toNat && c.toNat ≤ 57 then some (c.toNat - 48) else none

/-- Longest leading digit run of a character list. -/
def takeDigits : List Char → List Nat
  | [] => []
  | c :: cs =>
    match digitVal c with
    | some d => d :: takeDigits cs
    | none => []

/-- Base-10 value of a most-significant-first digit list. -/
def valDigits (ds : List Nat) : Nat := ds.foldl (fun a d => 10 * a + d) 0

/-- Model of `parseInt(s, 10)`; `none` is `NaN`: skip whitespace, optional
sign, then the longest digit run; no digits means `NaN`. -/
def jsParseInt10 (s : String) : Option Int :=
  let cs := s.data.dropWhile isWs
  let signNeg : Bool :=
    match cs with
    | c :: _ => c == '-'
    | [] => false
  let body : List Char :=
    match cs with
    | c :: r => if c == '-' || c == '+' then r else c :: r
    | [] => []
  let ds := takeDigits body
  if ds.isEmpty then none
  else some (if signNeg then -(valDigits ds : Int) else (valDigits ds : Int))

/-! ## The accessibility tree and SID derivation -/

/-- Accessibility node as consumed by the tools: a `SerializedAXNode` viewed
through `getAXString` (so `role`, `name`, `description`, `value` are the
unwrapped strings, empty when absent); `attrs` models the lower-cased
attribute map assembled by `extractAttributes`. -/
inductive AXNode where
  | mk (role name description value : String)
       (attrs : List (String × String)) (children : List AXNode)

def AXNode.role : AXNode → String
  | .mk r _ _ _ _ _ => r

def AXNode.name : AXNode → String
  | .mk _ n _ _ _ _ => n

def AXNode.description : AXNode → String
  | .mk _ _ d _ _ _ => d

def AXNode.value : AXNode → String
  | .mk _ _ _ v _ _ => v

def AXNode.attrs : AXNode → List (String × String)
  | .mk _ _ _ _ a _ => a

def AXNode.children : AXNode → List AXNode
  | .mk _ _ _ _ _ cs => cs

/-- Model of `path.posix.join('/', ...pathSegments)` (exact for the
slash-free `role[index]` segments built by the traversals). -/
def joinPath (segs : List String) : String := "/" ++ String.intercalate "/" segs

/-- `name.toLowerCase().trim().replace(/\s+/g, ' ')` from `generateSID`. -/
def normalizeLabel (name : String) : String :=
  ⟨collapseWs (jsTrim (jsLower name)).data⟩

/-- The SID hash: `sid_` + first 24 chars of `base64url(sha256(input))`. -/
def sidHash (frameId axPath role normLabel description : String) : String :=
  "sid_" ++ ⟨(b64urlEncode (sha256 (strUtf8
    (frameId ++ "||" ++ axPath ++ "||" ++ role ++ "||" ++ normLabel ++ "||" ++
     description)))).take 24⟩

/-- `generateSID` from the source. -/
def generateSID (node : AXNode) (frameId : String) (pathSegments : List String) :
    String :=
  sidHash frameId (joinPath pathSegments) node.role (normalizeLabel node.name)
    node.description

/-- `extractTextSnippet` from the source (`maxLength` fixed at its default 50,
the only value used): first non-empty of name/description/value, truncated to
50 characters plus `"..."` when longer. -/
def extractTextSnippet (node : AXNode) : Option String :=
  let text :=
    if truthy node.name then node.name
    else if truthy node.description then node.description
    else node.value
  if text = "" then none
  else if text.data.length > 50 then some (String.mk (text.data.take 50) ++ "...")
  else some text

/-- Bounding geometry. -/
structure Bounds where
  x : Int
  y : Int
  width : Int
  height : Int
deriving DecidableEq, Repr

/-- `getElementBounds` from the source: the node argument is ignored and a
constant placeholder rectangle is returned. -/
def getElementBounds (_node : AXNode) : Bounds := ⟨0, 0, 100, 20⟩

/-! ## Tree measures and the path enumeration -/

mutual

def treeSize : AXNode → Nat
  | .mk _ _ _ _ _ cs => 1 + treeSizeL cs

def treeSizeL : List AXNode → Nat
  | [] => 0
  | c :: cs => treeSize c + treeSizeL cs

end

mutual

/-- All nodes of a subtree with the paths the traversals assign them: the
root keeps its accumulated path, child `i` appends `role[i]` (role defaulting
to `"node"`), exactly as in `processNode`/`searchNode`. -/
def subnodes : AXNode → List String → List (AXNode × List String)
  | node@(.mk _ _ _ _ _ cs), path => (node, path) :: subnodesL cs path 0

def subnodesL : List AXNode → List String → Nat → List (AXNode × List String)
  | [], _, _ => []
  | c :: rest, path, i =>
    let childRole := if truthy c.role then c.role else "node"
    subnodes c (path ++ [childRole ++ "[" ++ natDec i ++ "]"]) ++
      subnodesL rest path (i + 1)

end

/-! ## The tree projector: `sem_snapshot` -/

/-- The `scope` enum of the `sem_snapshot` schema. -/
inductive Scope where
  | viewport
  | document
deriving DecidableEq, Repr

/-- Parameters of `sem_snapshot` (after schema defaults). -/
structure SnapParams where
  scope : Scope
  within_sid : Option String
  fields : List String
  max_nodes : Nat
  cursor : Option String

/-- A projected node (`SemanticSnapshotNode` of the source; absent fields are
`none`). -/
structure SemanticSnapshotNode where
  sid : Option String
  role : Option String
  label : Option String
  textSnippet : Option String
  bounds : Option Bounds
  frameId : Option String
deriving DecidableEq, Repr

/-- The constant frame id used by both handlers. -/
def mainFrame : String := "main"

/-- The field-filtered record `processNode` pushes for a node at a path. -/
def projectNode (p : SnapParams) (node : AXNode) (pathSegments : List String) :
    SemanticSnapshotNode :=
  ⟨if p.fields.contains "sid" then some (generateSID node mainFrame pathSegments)
    else none,
   if p.fields.contains "role" then some node.role else none,
   if p.fields.contains "label" then some node.name else none,
   if p.fields.contains "textSnippet" then extractTextSnippet node else none,
   if p.fields.contains "bounds" then some (getElementBounds node) else none,
   if p.fields.contains "frameId" then some mainFrame else none⟩

/-- `role || label || textSnippet`: the content test guarding materialization. -/
def hasContent (node : AXNode) : Bool :=
  truthy node.role || truthy node.name || (extractTextSnippet node).isSome

/-- The common `includeNode`/`nextScope` computation,
`targetSid ? isWithinScope || sid === targetSid : true`.  The guard is JS
truthiness: an *empty* `within_sid` is falsy, so it disables scoping exactly
like an absent one; with a non-empty target, scope is inherited or turns on
when the node's SID equals the target. -/
def scopeInclude : Option String → String → Bool → Bool
  | some t, sid, ws => if truthy t then ws || sid == t else true
  | none, _, _ => true

/-- The materialization step of `processNode`: append the projected record
when the node is in scope and content-bearing. -/
def pushNode (p : SnapParams) (node : AXNode) (path : List String) (inc : Bool)
    (nodes : List SemanticSnapshotNode) : List SemanticSnapshotNode :=
  if inc && hasContent node then nodes ++ [projectNode p node path] else nodes

mutual

/-- `processNode` from the `sem_snapshot` handler: depth-first pre-order
traversal accumulating materialized nodes, with the `max_nodes * 5`
truncation valve checked before descending into children. -/
def processNode (p : SnapParams) :
    AXNode → List String → Bool → List SemanticSnapshotNode →
      List SemanticSnapshotNode
  | node@(.mk _ _ _ _ _ cs), path, ws, nodes =>
    let sid := generateSID node mainFrame path
    let inc := scopeInclude p.within_sid sid ws
    let nodes1 := pushNode p node path inc nodes
    if cs.isEmpty then nodes1
    else if nodes1.length ≥ p.max_nodes * 5 then nodes1
    else processChildren p cs path inc 0 nodes1

/-- The `for` loop over children in `processNode`. -/
def processChildren (p : SnapParams) :
    List AXNode → List String → Bool → Nat → List SemanticSnapshotNode →
      List SemanticSnapshotNode
  | [], _, _, _, nodes => nodes
  | c :: rest, path, scope, i, nodes =>
    let childRole := if truthy c.role then c.role else "node"
    processChildren p rest path scope (i + 1)
      (processNode p c (path ++ [childRole ++ "[" ++ natDec i ++ "]"]) scope nodes)

end

/-- The materialized (unpaginated) node list of one `sem_snapshot` call. -/
def snapshotNodes (p : SnapParams) (tree : AXNode) : List SemanticSnapshotNode :=
  processNode p tree [] false []

/-- `ToIntegerOrInfinity`-style index resolution of `Array.prototype.slice`:
`NaN ↦ 0`, negative indices count from the end, results clamped to `[0, len]`. -/
def sliceIdx (len : Nat) : Option Int → Nat
  | none => 0
  | some k => if k < 0 then ((len : Int) + k).toNat else min k.toNat len

/-- Model of `l.slice(a, b)` with possibly-NaN (`none`) endpoints. -/
def jsSlice {α : Type} (l : List α) (a b : Option Int) : List α :=
  let s := sliceIdx l.length a
  let e := sliceIdx l.length b
  (l.drop s).take (e - s)

/-- Result of `sem_snapshot` (the random `snapshot_id` log token is omitted:
it carries no semantics). -/
structure SnapResult where
  nodes : List SemanticSnapshotNode
  next_cursor : Option String
deriving DecidableEq, Repr

/-- The pagination tail of the `sem_snapshot` handler.  The
`if (params.cursor)` guard is JS truthiness, so an absent *or empty* cursor
leaves the offset at 0; `parseInt` never throws, so the
`catch { startIndex = 0 }` branch is dead: a non-numeric cursor yields NaN
(`none`), which flows through `Math.min` and `slice`. -/
def snapshotResult (p : SnapParams) (tree : AXNode) : SnapResult :=
  let nodes := snapshotNodes p tree
  let startIndex : Option Int :=
    match p.cursor with
    | none => some 0
    | some c => if truthy c then jsParseInt10 c else some 0
  let endIndex : Option Int :=
    startIndex.map fun s => min (s + (p.max_nodes : Int)) (nodes.length : Int)
  let pageNodes := jsSlice nodes startIndex endIndex
  let nextCursor : Option String :=
    match endIndex with
    | none => none
    | some e => if e < (nodes.length : Int) then some (intDec e) else none
  ⟨pageNodes, nextCursor⟩

/-- `sem_snapshot` as a function of the captured tree (`none` models a null
capture, which the handler turns into a thrown, wrapped error). -/
def semSnapshot (capture : Option AXNode) (p : SnapParams) :
    Except String SnapResult :=
  match capture with
  | none =>
    .error "Failed to create semantic snapshot: Failed to capture accessibility tree"
  | some tree => .ok (snapshotResult p tree)

/-! ## The query engine: `sem_query` -/

inductive RankBy where
  | semantic_score
  | proximity
  | visibility
deriving DecidableEq, Repr

/-- Parameters of `sem_query` (after schema defaults). -/
structure QueryParams where
  role : Option String
  label : Option String
  text : Option String
  attributes : Option (List (String × String))
  within_sid : Option String
  rank_by : RankBy
  multiple : Bool
  max : Nat
  explain : Bool

/-- A query match (`SemanticQueryMatch` of the source). -/
structure SemanticQueryMatch where
  sid : String
  role : String
  label : String
  confidence : Rat
  score : Nat
deriving DecidableEq, Repr

/-- `Math.round(Math.min(score/100, 1) * 100) / 100` for an integer score.
Exactly: `min(score/100, 1) * 100 = min score 100`, an integer, fixed by
`Math.round`, so the pipeline returns `(min score 100) / 100`; evaluating the
same pipeline in double precision rounds to the identical value. -/
def confidenceOf (score : Nat) : Rat := Rat.divInt (min (score : Int) 100) 100

/-- The additive predicate scoring of `searchNode`: returns the score and the
`matchReasons` list, in push order (role, label, text, attributes). -/
def scoreNode (p : QueryParams) (node : AXNode) : Nat × List String :=
  let role := node.role
  let label := node.name
  let description := node.description
  let value := node.value
  let roleSR : Nat × List String :=
    match p.role with
    | some pr =>
      if truthy pr && jsIncludes (jsLower role) (jsLower pr) then
        (50, ["role=" ++ role])
      else (0, [])
    | none => (0, [])
  let labelSR : Nat × List String :=
    match p.label with
    | some pl =>
      if truthy pl then
        if jsIncludes (jsLower label) (jsLower pl) then (40, ["label≈" ++ label])
        else if jsIncludes (jsLower description) (jsLower pl) then
          (30, ["description≈" ++ description])
        else (0, [])
      else (0, [])
    | none => (0, [])
  let textSR : Nat × List String :=
    match p.text with
    | some pt =>
      if truthy pt &&
          jsIncludes (jsLower (label ++ " " ++ description ++ " " ++ value))
            (jsLower pt) then
        (35, ["text≈" ++ pt])
      else (0, [])
    | none => (0, [])
  let attrSR : Nat × List String :=
    match p.attributes with
    | some entries =>
      entries.foldl
        (fun acc av =>
          let actual := (node.attrs.lookup (jsLower av.1)).getD ""
          if truthy actual && jsLower actual == jsLower av.2 then
            (acc.1 + 20, acc.2 ++ [av.1 ++ "=" ++ actual])
          else acc)
        (0, [])
    | none => (0, [])
  (roleSR.1 + labelSR.1 + textSR.1 + attrSR.1,
   roleSR.2 ++ labelSR.2 ++ textSR.2 ++ attrSR.2)

/-- The match record pushed for a node at a path with a given score. -/
def mkMatch (node : AXNode) (path : List String) (score : Nat) :
    SemanticQueryMatch :=
  ⟨generateSID node mainFrame path, node.role, node.name, confidenceOf score,
   score⟩

/-- The match-recording step of `searchNode`: when the node is in scope,
scores it and appends the match record (and, under `explain`, the joined
reason string) when the score is positive and the node carries content. -/
def pushMatch (p : QueryParams) (node : AXNode) (path : List String) (inc : Bool)
    (acc : List SemanticQueryMatch × List String) :
    List SemanticQueryMatch × List String :=
  if inc then
    let sr := scoreNode p node
    if 0 < sr.1 &&
        (truthy node.role || truthy node.name || truthy node.description) then
      (acc.1 ++ [mkMatch node path sr.1],
       if p.explain then acc.2 ++ [String.intercalate "," sr.2] else acc.2)
    else acc
  else acc

mutual

/-- `searchNode` from the `sem_query` handler: same scoping traversal as
`processNode` (but without a truncation valve), accumulating the match list
and, when `explain` is set, the parallel explanation list. -/
def searchNode (p : QueryParams) :
    AXNode → List String → Bool →
      List SemanticQueryMatch × List String →
      List SemanticQueryMatch × List String
  | node@(.mk _ _ _ _ _ cs), path, ws, acc =>
    let sid := generateSID node mainFrame path
    let inc := scopeInclude p.within_sid sid ws
    let acc1 := pushMatch p node path inc acc
    searchChildren p cs path inc 0 acc1

/-- The `for` loop over children in `searchNode`. -/
def searchChildren (p : QueryParams) :
    List AXNode → List String → Bool → Nat →
      List SemanticQueryMatch × List String →
      List SemanticQueryMatch × List String
  | [], _, _, _, acc => acc
  | c :: rest, path, scope, i, acc =>
    let childRole := if truthy c.role then c.role else "node"
    searchChildren p rest path scope (i + 1)
      (searchNode p c (path ++ [childRole ++ "[" ++ natDec i ++ "]"]) scope acc)

end

/-- The raw (pre-ranking) match and explanation lists of one `sem_query` call. -/
def queryRaw (p : QueryParams) (tree : AXNode) :
    List SemanticQueryMatch × List String :=
  searchNode p tree [] false ([], [])

/-- Stable insertion sort; `le x y` means `x` may stay in front of `y`.
`Array.prototype.sort` is stable, so with the source's comparators the sorted
order is exactly this. -/
def insertBy {α : Type} (le : α → α → Bool) (x : α) : List α → List α
  | [] => [x]
  | y :: ys => if le x y then x :: y :: ys else y :: insertBy le x ys

def sortBy {α : Type} (le : α → α → Bool) : List α → List α
  | [] => []
  | x :: xs => insertBy le x (sortBy le xs)

/-- The three ranking policies.  `semantic_score`: descending score
(`(a,b) => b.score - a.score`); `proximity`: ascending `localeCompare` on
SIDs, modelled as code-point order (no claim depends on the collation);
`visibility`: descending confidence. -/
def rankMatches (r : RankBy) (ms : List SemanticQueryMatch) :
    List SemanticQueryMatch :=
  match r with
  | .semantic_score => sortBy (fun a b => b.score ≤ a.score) ms
  | .proximity => sortBy (fun a b => decide (a.sid ≤ b.sid)) ms
  | .visibility => sortBy (fun a b => decide (b.confidence ≤ a.confidence)) ms

/-- Result of `sem_query`. -/
structure QueryResult where
  sids : List String
  elements : List SemanticQueryMatch
  explanations : Option (List String)
deriving DecidableEq, Repr

/-- The result shaping of the `sem_query` handler.  Note: `matches` is sorted
in place, but `explanations` keeps traversal order; both branches slice the
explanation list to the returned match count without reordering it. -/
def semQueryResult (p : QueryParams) (tree : AXNode) : QueryResult :=
  let raw := queryRaw p tree
  let sorted := rankMatches p.rank_by raw.1
  let limited := sorted.take p.max
  match p.multiple, limited with
  | false, best :: _ =>
    ⟨[best.sid], [best],
     if p.explain then some (raw.2.take 1) else none⟩
  | _, _ =>
    ⟨limited.map (·.sid), limited,
     if p.explain then some (raw.2.take limited.length) else none⟩

/-- `sem_query` as a function of the captured tree. -/
def semQuery (capture : Option AXNode) (p : QueryParams) :
    Except String QueryResult :=
  match capture with
  | none =>
    .error "Failed to query semantic elements: Failed to capture accessibility tree for querying"
  | some tree => .ok (semQueryResult p tree)

/-! ## Concrete trees used by the claim theorems -/

/-- A single button node with name "Submit" (the reference scenario tree). -/
def buttonTree : AXNode := .mk "button" "Submit" "" "" [] []

/-- `sem_query` parameters: predicates only, everything else at its schema
default (`rank_by = semantic_score`, `multiple = false`, `max = 10`,
`explain = false`). -/
def queryDefaults (role label : Option String) : QueryParams :=
  ⟨role, label, none, none, none, .semantic_score, false, 10, false⟩

/-- A tree with one content-bearing node. -/
def oneNodeTree : AXNode := .mk "a" "A" "" "" [] []

/-- Two buttons under a group; used to exhibit the explanation misalignment. -/
def twoButtonTree : AXNode :=
  .mk "group" "G" "" "" []
    [.mk "button" "Cancel" "" "" [] [], .mk "button" "Submit" "" "" [] []]

/-- The `sem_query` call on `twoButtonTree`: role and label predicates,
`multiple` and `explain` set. -/
def twoButtonQuery : QueryParams :=
  ⟨some "button", some "Submit", none, none, none, .semantic_score, true, 10,
   true⟩

/-- A 51+-character text (60 characters). -/
def longName60 : String := "012345678901234567890123456789012345678901234567890123456789"

/-- Replace only the cursor of snapshot parameters. -/
def setCursor (p : SnapParams) (c : Option String) : SnapParams :=
  ⟨p.scope, p.within_sid, p.fields, p.max_nodes, c⟩

/-- The calling protocol of the pagination-completeness claim: call
`sem_snapshot`, then keep following `next_cursor` until it is null,
concatenating the returned pages (fuel bounds the number of calls). -/
def followPages (p : SnapParams) (t : AXNode) :
    Nat → Option String → List SemanticSnapshotNode
  | 0, _ => []
  | fuel + 1, c =>
    let r := snapshotResult (setCursor p c) t
    r.nodes ++
      (match r.next_cursor with
       | none => []
       | some c2 => followPages p t fuel (some c2))

/-- The subtree rooted at `f` below. -/
def valveDeep : AXNode := .mk "f" "F" "" "" [] [.mk "g" "G" "" "" [] []]

/-- An eight-node tree on which the *unscoped* snapshot traversal trips the
`max_nodes * 5` truncation valve (with `max_nodes = 1`) before reaching the
deepest node `g`, while the scoped traversal, having materialized fewer
nodes, does reach it. -/
def valveTree : AXNode :=
  .mk "r" "R" "" "" []
    [.mk "a" "A" "" "" [] [], .mk "b" "B" "" "" [] [], .mk "c" "C" "" "" [] [],
     .mk "d" "D" "" "" [] [], .mk "e" "E" "" "" [] [], valveDeep]

/-- The SID the traversal derives for the node `f` of `valveTree`
(sixth child, role `f`, so path `["f[5]"]`). -/
def valveScopeSid : String := generateSID valveDeep mainFrame ["f[5]"]

/-- Scoped/unscoped snapshot parameter pairs on `valveTree`, identical except
for `within_sid`. -/
def valveSnapS : SnapParams := ⟨.document, some valveScopeSid, ["label"], 1, none⟩

def valveSnapU : SnapParams := ⟨.document, none, ["label"], 1, none⟩

/-- The subtree rooted at `b` below. -/
def smallDeep : AXNode := .mk "b" "B" "" "" [] [.mk "c" "C" "" "" [] []]

/-- A four-node tree, small enough that the truncation valve never fires. -/
def smallTree : AXNode :=
  .mk "r" "R" "" "" [] [.mk "a" "A" "" "" [] [], smallDeep]

/-- The SID of node `b` of `smallTree` (second child, role `b`). -/
def smallScopeSid : String := generateSID smallDeep mainFrame ["b[1]"]

def smallSnapS : SnapParams := ⟨.document, some smallScopeSid, ["label"], 10, none⟩

def smallSnapU : SnapParams := ⟨.document, none, ["label"], 10, none⟩

def smallQueryS : QueryParams :=
  ⟨some "b", none, none, none, some smallScopeSid, .semantic_score, true, 10,
   false⟩

def smallQueryU : QueryParams :=
  ⟨some "b", none, none, none, none, .semantic_score, true, 10, false⟩

/-! ## Model validation -/

/-- Validation of the SHA-256/base64url model against the FIPS 180-4 test
vector `sha256("abc")` and a two-block input. -/
theorem sha256_model_valid :
    sha256B64url "abc" = "ungWv48Bz-pBQUDeXa4iI7ADYaOWF3qctBD_YfIAFa0" ∧
    sha256B64url (String.mk (List.replicate 100 'a')) =
      "KBZZeIjkoNOja4K4MxarMmgOuPAPjNO5BNaBJG0oWg4" := by
  constructor <;> decide

/-- Sanity: the SID model reproduces the reference implementation
(values computed with node's `crypto` / the same hash pipeline). -/
theorem generateSID_model_valid :
    generateSID (.mk "button" "Submit" "" "" [] []) "main" [] =
      "sid_B9KNW2qn5oRbqFuZ9IQLv5wR" ∧
    generateSID (.mk "button" "Submit" "" "" [] []) "main" ["button[0]"] =
      "sid_zvvblJWm6zcEm2HA6aoC16v5" ∧
    generateSID (.mk "b5" "five" "" "" [] []) "main" ["node[5]"] =
      "sid_Bq5bl565m4RTLLNofgng9sHp" := by
  refine ⟨by decide, by decide, by decide⟩

/-! ## Parameter congruence: the traversal reads only
`within_sid`, `fields` and `max_nodes` -/

theorem projectNode_congr (p q : SnapParams) (hf : p.fields = q.fields)
    (n : AXNode) (path : List String) : projectNode p n path = projectNode q n path := by
  unfold projectNode
  rw [hf]

theorem pushNode_congr (p q : SnapParams) (hf : p.fields = q.fields)
    (n : AXNode) (path : List String) (inc : Bool)
    (nodes : List SemanticSnapshotNode) :
    pushNode p n path inc nodes = pushNode q n path inc nodes := by
  unfold pushNode
  rw [projectNode_congr p q hf]

mutual

theorem processNode_congr (p q : SnapParams)
    (hw : ∀ sid ws, scopeInclude p.within_sid sid ws = scopeInclude q.within_sid sid ws)
    (hf : p.fields = q.fields) (hm : p.max_nodes = q.max_nodes) :
    ∀ (n : AXNode) (path : List String) (ws : Bool)
      (nodes : List SemanticSnapshotNode),
      processNode p n path ws nodes = processNode q n path ws nodes
  | .mk r nm d v a cs, path, ws, nodes => by
    simp only [processNode, hw, hf, hm, pushNode_congr p q hf]
    rw [processChildren_congr p q hw hf hm cs]

theorem processChildren_congr (p q : SnapParams)
    (hw : ∀ sid ws, scopeInclude p.within_sid sid ws = scopeInclude q.within_sid sid ws)
    (hf : p.fields = q.fields) (hm : p.max_nodes = q.max_nodes) :
    ∀ (cs : List AXNode) (path : List String) (sc : Bool) (i : Nat)
      (nodes : List SemanticSnapshotNode),
      processChildren p cs path sc i nodes = processChildren q cs path sc i nodes
  | [], _, _, _, _ => rfl
  | c :: rest, path, sc, i, nodes => by
    simp only [processChildren]
    rw [processNode_congr p q hw hf hm c, processChildren_congr p q hw hf hm rest]

end

theorem snapshotNodes_congr (p q : SnapParams)
    (hw : ∀ sid ws, scopeInclude p.within_sid sid ws = scopeInclude q.within_sid sid ws)
    (hf : p.fields = q.fields) (hm : p.max_nodes = q.max_nodes) (t : AXNode) :
    snapshotNodes p t = snapshotNodes q t :=
  processNode_congr p q hw hf hm t [] false []

/-! ## C10 — the `scope` parameter has no effect -/

/-- **C10**: for every captured tree and every fixed choice of the other
parameters, `sem_snapshot` returns the identical result (nodes and
next_cursor) for `scope = "viewport"` and `scope = "document"`: the handler
never reads `params.scope`. -/
theorem c10_scope_no_effect (capture : Option AXNode) (ws : Option String)
    (fields : List String) (maxN : Nat) (cur : Option String) :
    semSnapshot capture ⟨.viewport, ws, fields, maxN, cur⟩ =
      semSnapshot capture ⟨.document, ws, fields, maxN, cur⟩ := by
  cases capture with
  | none => rfl
  | some t =>
    simp only [semSnapshot, snapshotResult]
    rw [snapshotNodes_congr ⟨.viewport, ws, fields, maxN, cur⟩
      ⟨.document, ws, fields, maxN, cur⟩ (fun _ _ => rfl) rfl rfl t]

/-! ## Decimal print/parse round trip -/

theorem digitsLE_all_lt10 : ∀ (fuel n : Nat), ∀ d ∈ digitsLE fuel n, d < 10
  | 0, _ => by simp [digitsLE]
  | fuel + 1, n => by
    intro d hd
    by_cases hn : n = 0
    · simp [digitsLE, hn] at hd
    · simp only [digitsLE, if_neg hn, List.mem_cons] at hd
      rcases hd with h | h
      · subst h; omega
      · exact digitsLE_all_lt10 fuel (n / 10) d h

theorem digitVal_digitCh (d : Nat) (hd : d < 10) : digitVal (digitCh d) = some d := by
  interval_cases d <;> decide

theorem isWs_digitCh (d : Nat) (hd : d < 10) : isWs (digitCh d) = false := by
  interval_cases d <;> decide

theorem digitCh_ne_signs (d : Nat) (hd : d < 10) :
    (digitCh d == '-') = false ∧ (digitCh d == '+') = false := by
  interval_cases d <;> exact ⟨rfl, rfl⟩

theorem takeDigits_map_digitCh :
    ∀ l : List Nat, (∀ d ∈ l, d < 10) → takeDigits (l.map digitCh) = l
  | [], _ => rfl
  | d :: l', h => by
    simp only [List.map_cons, takeDigits, digitVal_digitCh d (h d (by simp))]
    rw [takeDigits_map_digitCh l' fun x hx => h x (by simp [hx])]

theorem valDigits_append_single (xs : List Nat) (d : Nat) :
    valDigits (xs ++ [d]) = 10 * valDigits xs + d := by
  unfold valDigits
  rw [List.foldl_append]
  rfl

theorem val_digitsLE : ∀ (fuel n : Nat), n ≤ fuel →
    valDigits (digitsLE fuel n).reverse = n
  | 0, n, h => by
    have : n = 0 := by omega
    subst this
    rfl
  | fuel + 1, n, h => by
    by_cases hn : n = 0
    · subst hn; rfl
    · simp only [digitsLE, if_neg hn, List.reverse_cons]
      rw [valDigits_append_single]
      have hdiv : n / 10 ≤ fuel := by
        have := Nat.div_lt_self (Nat.pos_of_ne_zero hn) (show 1 < 10 by omega)
        omega
      rw [val_digitsLE fuel (n / 10) hdiv]
      omega

theorem digitsLE_ne_nil (fuel n : Nat) (hn : n ≠ 0) (h : n ≤ fuel) :
    digitsLE fuel n ≠ [] := by
  cases fuel with
  | zero => omega
  | succ f => simp [digitsLE, hn]

theorem jsParseInt10_digitList (l : List Nat) (h : ∀ d ∈ l, d < 10)
    (hne : l ≠ []) :
    jsParseInt10 (String.mk (l.map digitCh)) = some (valDigits l : Int) := by
  obtain ⟨d, l', rfl⟩ := List.exists_cons_of_ne_nil hne
  have hd : d < 10 := h d (by simp)
  have hsigns := digitCh_ne_signs d hd
  simp only [jsParseInt10, List.map_cons, List.dropWhile_cons,
    isWs_digitCh d hd, Bool.false_eq_true, if_false, hsigns.1, hsigns.2,
    Bool.or_self, Bool.false_or]
  have ht : takeDigits (digitCh d :: List.map digitCh l') = d :: l' := by
    simpa using takeDigits_map_digitCh (d :: l') h
  rw [ht]
  simp

theorem jsParseInt10_natDec (n : Nat) : jsParseInt10 (natDec n) = some (n : Int) := by
  by_cases hn : n = 0
  · subst hn; decide
  · have hle : n ≤ n := le_refl n
    have hdig : ∀ d ∈ (digitsLE n n).reverse, d < 10 := by
      intro d hd
      exact digitsLE_all_lt10 n n d (List.mem_reverse.mp hd)
    have hne : (digitsLE n n).reverse ≠ [] := by
      simp only [ne_eq, List.reverse_eq_nil_iff]
      exact digitsLE_ne_nil n n hn hle
    have := jsParseInt10_digitList (digitsLE n n).reverse hdig hne
    rw [val_digitsLE n n hle] at this
    simpa [natDec, hn] using this

theorem intDec_natCast (k : Nat) : intDec (k : Int) = natDec k := by
  unfold intDec
  simp

theorem natDec_truthy (n : Nat) : truthy (natDec n) = true := by
  by_cases hn : n = 0
  · subst hn; decide
  · have hne : (digitsLE n n).reverse ≠ [] := by
      simp only [ne_eq, List.reverse_eq_nil_iff]
      exact digitsLE_ne_nil n n hn (le_refl n)
    have hstr : natDec n ≠ "" := by
      simp only [natDec, if_neg hn]
      intro h
      have hd := congrArg String.data h
      simp only [List.map_eq_nil_iff] at hd
      exact hne hd
    simp [truthy, hstr]

/-! ## C2 — pagination completeness -/

theorem drop_take_drop {α : Type} (L : List α) (k j : Nat) :
    (L.drop k).take j ++ L.drop (k + j) = L.drop k := by
  conv_rhs => rw [← List.take_append_drop j (L.drop k)]
  rw [List.drop_drop]

/-- Evaluation of the pagination tail of `sem_snapshot` when the effective
start offset is the natural number `k`. -/
theorem snapshotResult_eval (p : SnapParams) (t : AXNode) (k : Nat)
    (h : p.cursor = none ∧ k = 0 ∨
         ∃ s, p.cursor = some s ∧ truthy s = true ∧
           jsParseInt10 s = some (k : Int))
    (hk : k ≤ (snapshotNodes p t).length) :
    snapshotResult p t =
      ⟨((snapshotNodes p t).drop k).take
          (min (k + p.max_nodes) (snapshotNodes p t).length - k),
       if k + p.max_nodes < (snapshotNodes p t).length then
         some (natDec (k + p.max_nodes)) else none⟩ := by
  have e1 : sliceIdx (snapshotNodes p t).length (some (k : Int)) = k := by
    simp only [sliceIdx]
    rw [if_neg (by omega)]
    omega
  have e2 : sliceIdx (snapshotNodes p t).length
      (some (min ((k : Int) + (p.max_nodes : Int))
        ((snapshotNodes p t).length : Int))) =
      min (k + p.max_nodes) (snapshotNodes p t).length := by
    simp only [sliceIdx]
    rw [if_neg (by omega)]
    omega
  have tail : ∀ nc : Option String,
      nc = (if k + p.max_nodes < (snapshotNodes p t).length then
        some (natDec (k + p.max_nodes)) else none) →
      (⟨jsSlice (snapshotNodes p t) (some (k : Int))
          (some (min ((k : Int) + (p.max_nodes : Int))
            ((snapshotNodes p t).length : Int))), nc⟩ : SnapResult) =
      ⟨((snapshotNodes p t).drop k).take
          (min (k + p.max_nodes) (snapshotNodes p t).length - k),
       if k + p.max_nodes < (snapshotNodes p t).length then
         some (natDec (k + p.max_nodes)) else none⟩ := by
    intro nc hnc
    subst hnc
    simp only [jsSlice, e1, e2]
  have hnc : (if min ((k : Int) + (p.max_nodes : Int))
        ((snapshotNodes p t).length : Int) < ((snapshotNodes p t).length : Int)
      then some (intDec (min ((k : Int) + (p.max_nodes : Int))
        ((snapshotNodes p t).length : Int)))
      else none) =
      (if k + p.max_nodes < (snapshotNodes p t).length then
        some (natDec (k + p.max_nodes)) else none) := by
    rcases lt_or_ge (k + p.max_nodes) (snapshotNodes p t).length with hlt | hge
    · rw [if_pos (by omega), if_pos hlt,
        show min ((k : Int) + (p.max_nodes : Int))
          ((snapshotNodes p t).length : Int) =
          ((k + p.max_nodes : Nat) : Int) from by omega, intDec_natCast]
    · rw [if_neg (by omega), if_neg (by omega)]
  rcases h with ⟨hc, hk0⟩ | ⟨s, hc, htr, hparse⟩
  · subst hk0
    simp only [snapshotResult, hc, Option.map_some']
    exact tail _ hnc
  · simp only [snapshotResult, hc]
    rw [if_pos htr, hparse]
    simp only [Option.map_some']
    exact tail _ hnc

/-- Following the cursor from offset `k` returns exactly the dropped tail of
the materialized list. -/
theorem followPages_from (p : SnapParams) (t : AXNode) (hmax : 1 ≤ p.max_nodes) :
    ∀ (fuel k : Nat), k < (snapshotNodes p t).length →
      (snapshotNodes p t).length - k ≤ fuel →
      followPages p t fuel (some (natDec k)) = (snapshotNodes p t).drop k := by
  intro fuel
  induction fuel with
  | zero => intro k hk hf; omega
  | succ f ih =>
    intro k hk hf
    have hcong : snapshotNodes (setCursor p (some (natDec k))) t
        = snapshotNodes p t :=
      snapshotNodes_congr (setCursor p (some (natDec k))) p (fun _ _ => rfl) rfl rfl t
    have heval := snapshotResult_eval (setCursor p (some (natDec k))) t k
      (Or.inr ⟨natDec k, rfl, natDec_truthy k, jsParseInt10_natDec k⟩) (by rw [hcong]; omega)
    rw [hcong] at heval
    have hmx : (setCursor p (some (natDec k))).max_nodes = p.max_nodes := rfl
    rw [hmx] at heval
    simp only [followPages]
    rw [heval]
    rcases lt_or_ge (k + p.max_nodes) (snapshotNodes p t).length with hlt | hge
    · rw [if_pos hlt]
      simp only []
      rw [ih (k + p.max_nodes) hlt (by omega), min_eq_left (by omega),
        show k + p.max_nodes - k = p.max_nodes from by omega]
      exact drop_take_drop _ k p.max_nodes
    · rw [if_neg (by omega), min_eq_right (by omega)]
      simp only [List.append_nil]
      apply List.take_of_length_le
      simp [List.length_drop]

/-- **C2**: for a fixed tree and fixed `max_nodes ≥ 1`, starting with no
cursor and repeatedly following `next_cursor` until it is null, the
concatenation of the returned pages is exactly the full unpaginated
materialized node list, in order, with no duplicates or omissions
(fuel `length + 1` is enough calls to exhaust the cursor chain). -/
theorem c2_pagination_complete (p : SnapParams) (t : AXNode)
    (hmax : 1 ≤ p.max_nodes) :
    followPages p t ((snapshotNodes p t).length + 1) none = snapshotNodes p t := by
  have hcong : snapshotNodes (setCursor p none) t = snapshotNodes p t :=
    snapshotNodes_congr (setCursor p none) p (fun _ _ => rfl) rfl rfl t
  have heval := snapshotResult_eval (setCursor p none) t 0 (Or.inl ⟨rfl, rfl⟩)
    (by omega)
  rw [hcong] at heval
  have hmx : (setCursor p none).max_nodes = p.max_nodes := rfl
  rw [hmx] at heval
  simp only [followPages]
  rw [heval]
  simp only [Nat.zero_add, Nat.sub_zero, List.drop_zero]
  rcases lt_or_ge p.max_nodes (snapshotNodes p t).length with hlt | hge
  · rw [if_pos hlt]
    simp only []
    rw [followPages_from p t hmax ((snapshotNodes p t).length) p.max_nodes hlt
      (by omega), min_eq_left (by omega)]
    exact List.take_append_drop p.max_nodes (snapshotNodes p t)
  · rw [if_neg (by omega), min_eq_right (by omega)]
    simp only [List.append_nil]
    exact List.take_length (snapshotNodes p t)

/-- Witness for C2 on a concrete three-node tree with `max_nodes = 1`
(three pages of one node each). -/
theorem c2_pagination_complete_witness :
    followPages ⟨.document, none, ["label"], 1, none⟩ twoButtonTree
      ((snapshotNodes ⟨.document, none, ["label"], 1, none⟩ twoButtonTree).length
        + 1) none
      = snapshotNodes ⟨.document, none, ["label"], 1, none⟩ twoButtonTree :=
  c2_pagination_complete ⟨.document, none, ["label"], 1, none⟩ twoButtonTree
    (by decide)

/-! ## C9 — path uniqueness -/

theorem strExt (s t : String) (h : s.data = t.data) : s = t := by
  cases s
  cases t
  exact congrArg String.mk h

theorem natDec_inj (a b : Nat) (h : natDec a = natDec b) : a = b := by
  have ha := jsParseInt10_natDec a
  rw [h, jsParseInt10_natDec b] at ha
  have := Option.some.inj ha
  omega

theorem natDec_data_all_digitCh (n : Nat) :
    ∀ c ∈ (natDec n).data, ∃ d, d < 10 ∧ c = digitCh d := by
  intro c hc
  by_cases hn : n = 0
  · subst hn
    simp only [natDec, if_pos rfl] at hc
    have : c = '0' := by simpa using hc
    exact ⟨0, by omega, by rw [this]; rfl⟩
  · simp only [natDec, if_neg hn] at hc
    have hc' : c ∈ ((digitsLE n n).reverse).map digitCh := hc
    obtain ⟨d, hd, rfl⟩ := List.mem_map.mp hc'
    exact ⟨d, digitsLE_all_lt10 n n d (List.mem_reverse.mp hd), rfl⟩

theorem digitCh_ne_lbracket (d : Nat) (hd : d < 10) : digitCh d ≠ '[' := by
  interval_cases d <;> decide

theorem natDec_data_no_lbracket (n : Nat) : ∀ c ∈ (natDec n).data, c ≠ '[' := by
  intro c hc
  obtain ⟨d, hd, rfl⟩ := natDec_data_all_digitCh n c hc
  exact digitCh_ne_lbracket d hd

/-- Cancelling equal digit runs (no `'['` inside) before a `'['` marker. -/
theorem bracket_run_cancel :
    ∀ (d1 d2 x y : List Char), (∀ c ∈ d1, c ≠ '[') → (∀ c ∈ d2, c ≠ '[') →
      d1 ++ '[' :: x = d2 ++ '[' :: y → d1 = d2
  | [], [], _, _, _, _, _ => rfl
  | [], c :: d2', x, y, _, h2, h => by
    exfalso
    have : '[' = c := by simpa using congrArg (fun l => l.headD ' ') h
    exact h2 c (by simp) this.symm
  | c :: d1', [], x, y, h1, _, h => by
    exfalso
    have : c = '[' := by simpa using congrArg (fun l => l.headD ' ') h
    exact h1 c (by simp) this
  | c1 :: d1', c2 :: d2', x, y, h1, h2, h => by
    simp only [List.cons_append, List.cons.injEq] at h
    rw [h.1, bracket_run_cancel d1' d2' x y
      (fun c hc => h1 c (by simp [hc])) (fun c hc => h2 c (by simp [hc])) h.2]

/-- Two traversal path segments `role ++ "[" ++ i ++ "]"` are equal only if
their child indices are equal, whatever the roles are. -/
theorem segment_index_inj (r1 r2 : String) (i j : Nat)
    (h : r1 ++ "[" ++ natDec i ++ "]" = r2 ++ "[" ++ natDec j ++ "]") : i = j := by
  have hd : r1.data ++ ('[' :: ((natDec i).data ++ [']'])) =
      r2.data ++ ('[' :: ((natDec j).data ++ [']'])) := by
    have := congrArg String.data h
    simpa [String.data_append, List.append_assoc] using this
  have hrev : ((natDec i).data ++ [']']).reverse ++ '[' :: r1.data.reverse =
      ((natDec j).data ++ [']']).reverse ++ '[' :: r2.data.reverse := by
    have := congrArg List.reverse hd
    simpa [List.reverse_append] using this
  simp only [List.reverse_append, List.reverse_cons, List.reverse_nil,
    List.nil_append, List.singleton_append, List.cons_append,
    List.cons.injEq, true_and] at hrev
  have hcan : (natDec i).data.reverse = (natDec j).data.reverse :=
    bracket_run_cancel _ _ _ _
      (fun c hc => natDec_data_no_lbracket i c (List.mem_reverse.mp hc))
      (fun c hc => natDec_data_no_lbracket j c (List.mem_reverse.mp hc))
      hrev
  exact natDec_inj i j (strExt _ _ (List.reverse_injective hcan))

mutual

theorem subnodes_ext : ∀ (n : AXNode) (path : List String)
    (m : AXNode × List String), m ∈ subnodes n path → ∃ r, m.2 = path ++ r
  | .mk ro nm d v a cs, path, m => by
    intro hm
    simp only [subnodes, List.mem_cons] at hm
    rcases hm with h | h
    · exact ⟨[], by simp [h]⟩
    · obtain ⟨role, j, r, _, hp⟩ := subnodesL_ext cs path 0 m h
      exact ⟨_, hp⟩

theorem subnodesL_ext : ∀ (cs : List AXNode) (path : List String) (i : Nat)
    (m : AXNode × List String), m ∈ subnodesL cs path i →
      ∃ role j r, i ≤ j ∧ m.2 = path ++ (role ++ "[" ++ natDec j ++ "]") :: r
  | [], _, _, _ => by simp [subnodesL]
  | c :: rest, path, i, m => by
    intro hm
    simp only [subnodesL, List.mem_append] at hm
    rcases hm with h | h
    · obtain ⟨r, hr⟩ := subnodes_ext c
        (path ++ [(if truthy c.role then c.role else "node") ++ "[" ++ natDec i ++ "]"])
        m h
      exact ⟨(if truthy c.role then c.role else "node"), i, r, le_refl i,
        by rw [hr]; simp⟩
    · obtain ⟨role, j, r, hij, hp⟩ := subnodesL_ext rest path (i + 1) m h
      exact ⟨role, j, r, by omega, hp⟩

end

mutual

theorem subnodes_paths_pairwise : ∀ (n : AXNode) (path : List String),
    (subnodes n path).Pairwise fun a b => a.2 ≠ b.2
  | .mk ro nm d v a cs, path => by
    rw [subnodes, List.pairwise_cons]
    constructor
    · intro b hb
      obtain ⟨role, j, r, _, hp⟩ := subnodesL_ext cs path 0 b hb
      intro h
      have := congrArg List.length (h.trans hp)
      simp at this
    · exact subnodesL_paths_pairwise cs path 0

theorem subnodesL_paths_pairwise : ∀ (cs : List AXNode) (path : List String)
    (i : Nat), (subnodesL cs path i).Pairwise fun a b => a.2 ≠ b.2
  | [], _, _ => by simp [subnodesL]
  | c :: rest, path, i => by
    rw [subnodesL, List.pairwise_append]
    refine ⟨subnodes_paths_pairwise c _, subnodesL_paths_pairwise rest path (i + 1),
      ?_⟩
    intro x hx y hy hxy
    obtain ⟨rx, hrx⟩ := subnodes_ext c _ x hx
    obtain ⟨role, j, ry, hij, hry⟩ := subnodesL_ext rest path (i + 1) y hy
    rw [hxy, hry] at hrx
    rw [List.append_assoc, List.singleton_append] at hrx
    have hseg := (List.cons.injEq _ _ _ _).mp (List.append_cancel_left hrx.symm)
    have := segment_index_inj _ _ i j hseg.1
    omega

end

/-- **C9**: within one traversal of an accessibility tree, no two distinct
nodes are assigned the same path (the sequence of `role[childIndex]`
segments accumulated from the root, as built by `processNode`/`searchNode`
and enumerated by `subnodes`). -/
theorem c9_paths_unique (t : AXNode) :
    (subnodes t []).Pairwise fun a b => a.2 ≠ b.2 :=
  subnodes_paths_pairwise t []

/-! ## C1 — scope restriction: infrastructure -/

theorem scopeInclude_none (sid : String) (ws : Bool) :
    scopeInclude none sid ws = true := rfl

theorem treeSize_pos : ∀ n : AXNode, 1 ≤ treeSize n
  | .mk _ _ _ _ _ cs => by simp [treeSize]

theorem treeSizeL_cons (c : AXNode) (rest : List AXNode) :
    treeSizeL (c :: rest) = treeSize c + treeSizeL rest := rfl

theorem treeSizeL_pos_of_ne_nil : ∀ cs : List AXNode, cs ≠ [] → 1 ≤ treeSizeL cs
  | [], h => absurd rfl h
  | c :: rest, _ => by
    have := treeSize_pos c
    simp only [treeSizeL_cons]
    omega

theorem pushNode_len (p : SnapParams) (n : AXNode) (path : List String)
    (inc : Bool) (acc : List SemanticSnapshotNode) :
    (pushNode p n path inc acc).length ≤ acc.length + 1 := by
  unfold pushNode
  split <;> simp

mutual

theorem processNode_len_bound (p : SnapParams) :
    ∀ (n : AXNode) (path : List String) (ws : Bool)
      (acc : List SemanticSnapshotNode),
      (processNode p n path ws acc).length ≤ acc.length + treeSize n
  | .mk ro nm d v a cs, path, ws, acc => by
    simp only [processNode, treeSize]
    set inc := scopeInclude p.within_sid
      (generateSID (AXNode.mk ro nm d v a cs) mainFrame path) ws with hinc
    set nodes1 := pushNode p (AXNode.mk ro nm d v a cs) path inc acc with hn1
    have h1 : nodes1.length ≤ acc.length + 1 := by
      rw [hn1]; exact pushNode_len p _ path inc acc
    by_cases hcs : cs.isEmpty
    · rw [if_pos hcs]; omega
    · rw [if_neg hcs]
      by_cases hv : nodes1.length ≥ p.max_nodes * 5
      · rw [if_pos hv]; omega
      · rw [if_neg hv]
        have h2 := processChildren_len_bound p cs path inc 0 nodes1
        omega

theorem processChildren_len_bound (p : SnapParams) :
    ∀ (cs : List AXNode) (path : List String) (sc : Bool) (i : Nat)
      (acc : List SemanticSnapshotNode),
      (processChildren p cs path sc i acc).length ≤ acc.length + treeSizeL cs
  | [], _, _, _, acc => by simp [processChildren, treeSizeL]
  | c :: rest, path, sc, i, acc => by
    simp only [processChildren, treeSizeL_cons]
    have h1 := processNode_len_bound p c
      (path ++ [(if truthy c.role then c.role else "node") ++ "[" ++ natDec i ++ "]"])
      sc acc
    have h2 := processChildren_len_bound p rest path sc (i + 1)
      (processNode p c
        (path ++ [(if truthy c.role then c.role else "node") ++ "[" ++ natDec i ++ "]"])
        sc acc)
    omega

end

theorem pushNode_scope_sublist (pS pU : SnapParams) (hf : pS.fields = pU.fields)
    (n : AXNode) (path : List String) (incS : Bool)
    (accS accU : List SemanticSnapshotNode) (h : accS.Sublist accU) :
    (pushNode pS n path incS accS).Sublist (pushNode pU n path true accU) := by
  unfold pushNode
  rw [projectNode_congr pS pU hf]
  cases hcon : hasContent n
  · simpa [hcon] using h
  · simp only [hcon, Bool.and_true, Bool.true_and]
    cases incS
    · simp only [Bool.false_eq_true, if_false]
      exact h.trans (List.sublist_append_left accU _)
    · simp only [if_pos rfl]
      exact h.append (List.Sublist.refl _)

mutual

/-- Scoped-vs-unscoped comparison for the snapshot traversal: as long as the
unscoped side stays below the truncation valve, the scoped accumulation is a
sublist of the unscoped one. -/
theorem processNode_scope_sublist (pS pU : SnapParams)
    (hf : pS.fields = pU.fields) (hm : pS.max_nodes = pU.max_nodes)
    (hu : pU.within_sid = none) :
    ∀ (n : AXNode) (path : List String) (ws wsU : Bool)
      (accS accU : List SemanticSnapshotNode),
      accS.Sublist accU → accU.length + treeSize n ≤ pU.max_nodes * 5 →
      (processNode pS n path ws accS).Sublist (processNode pU n path wsU accU)
  | .mk ro nm d v a cs, path, ws, wsU, accS, accU, hsub, hbound => by
    have hbound' : accU.length + (1 + treeSizeL cs) ≤ pU.max_nodes * 5 := by
      simpa [treeSize] using hbound
    simp only [processNode, hu, scopeInclude_none]
    set incS := scopeInclude pS.within_sid
      (generateSID (AXNode.mk ro nm d v a cs) mainFrame path) ws with hincS
    set eS := pushNode pS (AXNode.mk ro nm d v a cs) path incS accS with heS
    set eU := pushNode pU (AXNode.mk ro nm d v a cs) path true accU with heU
    have hps : eS.Sublist eU := by
      rw [heS, heU]
      exact pushNode_scope_sublist pS pU hf _ path incS accS accU hsub
    have hlu : eU.length ≤ accU.length + 1 := by
      rw [heU]; exact pushNode_len pU _ path true accU
    have hls : eS.length ≤ eU.length := hps.length_le
    by_cases hcs : cs.isEmpty
    · rw [if_pos hcs, if_pos hcs]
      exact hps
    · rw [if_neg hcs, if_neg hcs]
      have hcs' : cs ≠ [] := by simpa using hcs
      have h1 : 1 ≤ treeSizeL cs := treeSizeL_pos_of_ne_nil cs hcs'
      have hUv : ¬ (eU.length ≥ pU.max_nodes * 5) := by omega
      have hSv : ¬ (eS.length ≥ pS.max_nodes * 5) := by rw [hm]; omega
      rw [if_neg hSv, if_neg hUv]
      exact processChildren_scope_sublist pS pU hf hm hu cs path incS true 0 eS eU
        hps (by omega)

theorem processChildren_scope_sublist (pS pU : SnapParams)
    (hf : pS.fields = pU.fields) (hm : pS.max_nodes = pU.max_nodes)
    (hu : pU.within_sid = none) :
    ∀ (cs : List AXNode) (path : List String) (scS scU : Bool) (i : Nat)
      (accS accU : List SemanticSnapshotNode),
      accS.Sublist accU → accU.length + treeSizeL cs ≤ pU.max_nodes * 5 →
      (processChildren pS cs path scS i accS).Sublist
        (processChildren pU cs path scU i accU)
  | [], _, _, _, _, accS, accU, hsub, _ => by
    simpa [processChildren] using hsub
  | c :: rest, path, scS, scU, i, accS, accU, hsub, hbound => by
    have hbound' : accU.length + (treeSize c + treeSizeL rest) ≤ pU.max_nodes * 5 := by
      simpa [treeSizeL_cons] using hbound
    simp only [processChildren]
    have hnode := processNode_scope_sublist pS pU hf hm hu c
      (path ++ [(if truthy c.role then c.role else "node") ++ "[" ++ natDec i ++ "]"])
      scS scU accS accU hsub (by omega)
    have hlen := processNode_len_bound pU c
      (path ++ [(if truthy c.role then c.role else "node") ++ "[" ++ natDec i ++ "]"])
      scU accU
    exact processChildren_scope_sublist pS pU hf hm hu rest path scS scU (i + 1)
      _ _ hnode (by omega)

end

theorem scoreNode_congr (p q : QueryParams) (hr : p.role = q.role)
    (hl : p.label = q.label) (ht : p.text = q.text)
    (ha : p.attributes = q.attributes) (n : AXNode) :
    scoreNode p n = scoreNode q n := by
  unfold scoreNode
  rw [hr, hl, ht, ha]

theorem pushMatch_fst_scope_sublist (pS pU : QueryParams)
    (hsc : scoreNode pS = scoreNode pU)
    (n : AXNode) (path : List String) (incS : Bool)
    (accS accU : List SemanticQueryMatch × List String)
    (h : accS.1.Sublist accU.1) :
    (pushMatch pS n path incS accS).1.Sublist (pushMatch pU n path true accU).1 := by
  unfold pushMatch
  rw [hsc]
  cases hcond : (0 < (scoreNode pU n).1 &&
      (truthy n.role || truthy n.name || truthy n.description) : Bool)
  · simpa [hcond] using (by cases incS <;> simp [h] : _)
  · simp only [hcond, if_pos rfl]
    cases incS
    · simp only [Bool.false_eq_true, if_false]
      exact h.trans (List.sublist_append_left accU.1 _)
    · simp only [if_pos rfl]
      exact h.append (List.Sublist.refl _)

mutual

/-- Scoped-vs-unscoped comparison for the query traversal: the scoped raw
match list is always a sublist of the unscoped one (no truncation valve). -/
theorem searchNode_scope_sublist (pS pU : QueryParams)
    (hsc : scoreNode pS = scoreNode pU) (hu : pU.within_sid = none) :
    ∀ (n : AXNode) (path : List String) (ws wsU : Bool)
      (accS accU : List SemanticQueryMatch × List String),
      accS.1.Sublist accU.1 →
      (searchNode pS n path ws accS).1.Sublist (searchNode pU n path wsU accU).1
  | .mk ro nm d v a cs, path, ws, wsU, accS, accU, hsub => by
    simp only [searchNode, hu, scopeInclude_none]
    exact searchChildren_scope_sublist pS pU hsc hu cs path _ true 0 _ _
      (pushMatch_fst_scope_sublist pS pU hsc _ path _ accS accU hsub)

theorem searchChildren_scope_sublist (pS pU : QueryParams)
    (hsc : scoreNode pS = scoreNode pU) (hu : pU.within_sid = none) :
    ∀ (cs : List AXNode) (path : List String) (scS scU : Bool) (i : Nat)
      (accS accU : List SemanticQueryMatch × List String),
      accS.1.Sublist accU.1 →
      (searchChildren pS cs path scS i accS).1.Sublist
        (searchChildren pU cs path scU i accU).1
  | [], _, _, _, _, accS, accU, hsub => by
    simpa [searchChildren] using hsub
  | c :: rest, path, scS, scU, i, accS, accU, hsub => by
    simp only [searchChildren]
    exact searchChildren_scope_sublist pS pU hsc hu rest path scS scU (i + 1) _ _
      (searchNode_scope_sublist pS pU hsc hu c
        (path ++ [(if truthy c.role then c.role else "node") ++ "[" ++ natDec i ++ "]"])
        scS scU accS accU hsub)

end

theorem scopeInclude_some (t : String) (ht : truthy t = true) (sid : String)
    (ws : Bool) : scopeInclude (some t) sid ws = (ws || sid == t) := by
  simp only [scopeInclude]
  rw [if_pos ht]

theorem scopeInclude_falsy (t : String) (ht : truthy t = false) (sid : String)
    (ws : Bool) : scopeInclude (some t) sid ws = true := by
  simp only [scopeInclude]
  rw [ht]
  simp

theorem subnodes_self_mem : ∀ (n : AXNode) (path : List String),
    (n, path) ∈ subnodes n path
  | .mk ro nm d v a cs, path => by simp [subnodes]

theorem pushNode_false (p : SnapParams) (n : AXNode) (path : List String)
    (acc : List SemanticSnapshotNode) : pushNode p n path false acc = acc := by
  unfold pushNode
  simp

theorem pushNode_mem (p : SnapParams) (n : AXNode) (path : List String)
    (inc : Bool) (acc : List SemanticSnapshotNode) (e : SemanticSnapshotNode)
    (h : e ∈ pushNode p n path inc acc) :
    e ∈ acc ∨ e = projectNode p n path := by
  unfold pushNode at h
  split at h
  · rcases List.mem_append.mp h with h' | h'
    · exact Or.inl h'
    · exact Or.inr (by simpa using h')
  · exact Or.inl h

mutual

/-- Everything the snapshot traversal materializes is the projection of a
node of the visited subtree (at the path the traversal assigns it). -/
theorem processNode_out_sub (p : SnapParams) :
    ∀ (n : AXNode) (path : List String) (ws : Bool)
      (acc : List SemanticSnapshotNode) (e : SemanticSnapshotNode),
      e ∈ processNode p n path ws acc →
      e ∈ acc ∨ ∃ dd ∈ subnodes n path, e = projectNode p dd.1 dd.2
  | .mk ro nm d v a cs, path, ws, acc, e => by
    intro he
    simp only [processNode] at he
    have hpush : e ∈ pushNode p (AXNode.mk ro nm d v a cs) path
        (scopeInclude p.within_sid
          (generateSID (AXNode.mk ro nm d v a cs) mainFrame path) ws) acc →
        e ∈ acc ∨ ∃ dd ∈ subnodes (AXNode.mk ro nm d v a cs) path,
          e = projectNode p dd.1 dd.2 := by
      intro h
      rcases pushNode_mem p _ path _ acc e h with h' | h'
      · exact Or.inl h'
      · exact Or.inr ⟨(AXNode.mk ro nm d v a cs, path), subnodes_self_mem _ _, h'⟩
    split at he
    · exact hpush he
    · split at he
      · exact hpush he
      · rcases processChildren_out_sub p cs path _ 0 _ e he with h | ⟨dd, hd1, hd2⟩
        · exact hpush h
        · refine Or.inr ⟨dd, ?_, hd2⟩
          simp only [subnodes]
          exact List.mem_cons_of_mem _ hd1

theorem processChildren_out_sub (p : SnapParams) :
    ∀ (cs : List AXNode) (path : List String) (sc : Bool) (i : Nat)
      (acc : List SemanticSnapshotNode) (e : SemanticSnapshotNode),
      e ∈ processChildren p cs path sc i acc →
      e ∈ acc ∨ ∃ dd ∈ subnodesL cs path i, e = projectNode p dd.1 dd.2
  | [], _, _, _, acc, e => by
    intro he
    simp only [processChildren] at he
    exact Or.inl he
  | c :: rest, path, sc, i, acc, e => by
    intro he
    simp only [processChildren] at he
    rcases processChildren_out_sub p rest path sc (i + 1) _ e he with h | ⟨dd, hd1, hd2⟩
    · rcases processNode_out_sub p c _ sc acc e h with h' | ⟨dd, hd1, hd2⟩
      · exact Or.inl h'
      · refine Or.inr ⟨dd, ?_, hd2⟩
        simp only [subnodesL]
        exact List.mem_append_left _ hd1
    · refine Or.inr ⟨dd, ?_, hd2⟩
      simp only [subnodesL]
      exact List.mem_append_right _ hd1

end

mutual

/-- With scope off (`within_sid = some S`, traversal not yet inside the
scoped subtree), every materialized node comes from the subtree of some node
whose derived SID is `S`. -/
theorem processNode_scoped_sub (p : SnapParams) (S : String)
    (hp : p.within_sid = some S) (hts : truthy S = true) :
    ∀ (n : AXNode) (path : List String) (acc : List SemanticSnapshotNode)
      (e : SemanticSnapshotNode),
      e ∈ processNode p n path false acc →
      e ∈ acc ∨ ∃ a2 ∈ subnodes n path, generateSID a2.1 mainFrame a2.2 = S ∧
        ∃ dd ∈ subnodes a2.1 a2.2, e = projectNode p dd.1 dd.2
  | .mk ro nm d v a cs, path, acc, e => by
    intro he
    simp only [processNode, hp, scopeInclude_some S hts, Bool.false_or] at he
    by_cases hS : (generateSID (AXNode.mk ro nm d v a cs) mainFrame path == S) = true
    · have hSeq : generateSID (AXNode.mk ro nm d v a cs) mainFrame path = S := by
        simpa using hS
      simp only [hS] at he
      have hpush : e ∈ pushNode p (AXNode.mk ro nm d v a cs) path true acc →
          e ∈ acc ∨ ∃ a2 ∈ subnodes (AXNode.mk ro nm d v a cs) path,
            generateSID a2.1 mainFrame a2.2 = S ∧
            ∃ dd ∈ subnodes a2.1 a2.2, e = projectNode p dd.1 dd.2 := by
        intro h
        rcases pushNode_mem p _ path _ acc e h with h' | h'
        · exact Or.inl h'
        · exact Or.inr ⟨(AXNode.mk ro nm d v a cs, path), subnodes_self_mem _ _,
            hSeq, (AXNode.mk ro nm d v a cs, path), subnodes_self_mem _ _, h'⟩
      split at he
      · exact hpush he
      · split at he
        · exact hpush he
        · rcases processChildren_out_sub p cs path true 0 _ e he with h | ⟨dd, hd1, hd2⟩
          · exact hpush h
          · refine Or.inr ⟨(AXNode.mk ro nm d v a cs, path), subnodes_self_mem _ _,
              hSeq, dd, ?_, hd2⟩
            simp only [subnodes]
            exact List.mem_cons_of_mem _ hd1
    · have hS' : (generateSID (AXNode.mk ro nm d v a cs) mainFrame path == S) = false := by
        simpa using hS
      simp only [hS', pushNode_false] at he
      split at he
      · exact Or.inl he
      · split at he
        · exact Or.inl he
        · rcases processChildren_scoped_sub p S hp hts cs path 0 acc e he with h | ⟨a2, ha1, ha2, hrest⟩
          · exact Or.inl h
          · refine Or.inr ⟨a2, ?_, ha2, hrest⟩
            simp only [subnodes]
            exact List.mem_cons_of_mem _ ha1

theorem processChildren_scoped_sub (p : SnapParams) (S : String)
    (hp : p.within_sid = some S) (hts : truthy S = true) :
    ∀ (cs : List AXNode) (path : List String) (i : Nat)
      (acc : List SemanticSnapshotNode) (e : SemanticSnapshotNode),
      e ∈ processChildren p cs path false i acc →
      e ∈ acc ∨ ∃ a2 ∈ subnodesL cs path i, generateSID a2.1 mainFrame a2.2 = S ∧
        ∃ dd ∈ subnodes a2.1 a2.2, e = projectNode p dd.1 dd.2
  | [], _, _, acc, e => by
    intro he
    simp only [processChildren] at he
    exact Or.inl he
  | c :: rest, path, i, acc, e => by
    intro he
    simp only [processChildren] at he
    rcases processChildren_scoped_sub p S hp hts rest path (i + 1) _ e he with h | ⟨a2, ha1, ha2, hrest⟩
    · rcases processNode_scoped_sub p S hp hts c _ acc e h with h' | ⟨a2, ha1, ha2, hrest⟩
      · exact Or.inl h'
      · refine Or.inr ⟨a2, ?_, ha2, hrest⟩
        simp only [subnodesL]
        exact List.mem_append_left _ ha1
    · refine Or.inr ⟨a2, ?_, ha2, hrest⟩
      simp only [subnodesL]
      exact List.mem_append_right _ ha1

end

/-! Query-side descendant lemmas. -/

theorem pushMatch_false (p : QueryParams) (n : AXNode) (path : List String)
    (acc : List SemanticQueryMatch × List String) :
    pushMatch p n path false acc = acc := by
  unfold pushMatch
  simp

theorem pushMatch_fst_mem (p : QueryParams) (n : AXNode) (path : List String)
    (inc : Bool) (acc : List SemanticQueryMatch × List String)
    (m : SemanticQueryMatch) (h : m ∈ (pushMatch p n path inc acc).1) :
    m ∈ acc.1 ∨ m = mkMatch n path (scoreNode p n).1 := by
  simp only [pushMatch] at h
  by_cases hinc : inc = true
  · rw [if_pos hinc] at h
    by_cases hcond : (decide (0 < (scoreNode p n).1) &&
        (truthy n.role || truthy n.name || truthy n.description)) = true
    · rw [if_pos hcond] at h
      simpa using h
    · rw [if_neg hcond] at h
      exact Or.inl h
  · rw [if_neg hinc] at h
    exact Or.inl h

mutual

theorem searchNode_out_sub (p : QueryParams) :
    ∀ (n : AXNode) (path : List String) (ws : Bool)
      (acc : List SemanticQueryMatch × List String) (m : SemanticQueryMatch),
      m ∈ (searchNode p n path ws acc).1 →
      m ∈ acc.1 ∨ ∃ dd ∈ subnodes n path, m = mkMatch dd.1 dd.2 (scoreNode p dd.1).1
  | .mk ro nm d v a cs, path, ws, acc, m => by
    intro hm
    simp only [searchNode] at hm
    rcases searchChildren_out_sub p cs path _ 0 _ m hm with h | ⟨dd, hd1, hd2⟩
    · rcases pushMatch_fst_mem p _ path _ acc m h with h' | h'
      · exact Or.inl h'
      · exact Or.inr ⟨(AXNode.mk ro nm d v a cs, path), subnodes_self_mem _ _, h'⟩
    · refine Or.inr ⟨dd, ?_, hd2⟩
      simp only [subnodes]
      exact List.mem_cons_of_mem _ hd1

theorem searchChildren_out_sub (p : QueryParams) :
    ∀ (cs : List AXNode) (path : List String) (sc : Bool) (i : Nat)
      (acc : List SemanticQueryMatch × List String) (m : SemanticQueryMatch),
      m ∈ (searchChildren p cs path sc i acc).1 →
      m ∈ acc.1 ∨ ∃ dd ∈ subnodesL cs path i, m = mkMatch dd.1 dd.2 (scoreNode p dd.1).1
  | [], _, _, _, acc, m => by
    intro hm
    simp only [searchChildren] at hm
    exact Or.inl hm
  | c :: rest, path, sc, i, acc, m => by
    intro hm
    simp only [searchChildren] at hm
    rcases searchChildren_out_sub p rest path sc (i + 1) _ m hm with h | ⟨dd, hd1, hd2⟩
    · rcases searchNode_out_sub p c _ sc acc m h with h' | ⟨dd, hd1, hd2⟩
      · exact Or.inl h'
      · refine Or.inr ⟨dd, ?_, hd2⟩
        simp only [subnodesL]
        exact List.mem_append_left _ hd1
    · refine Or.inr ⟨dd, ?_, hd2⟩
      simp only [subnodesL]
      exact List.mem_append_right _ hd1

end

mutual

theorem searchNode_scoped_sub (p : QueryParams) (S : String)
    (hp : p.within_sid = some S) (hts : truthy S = true) :
    ∀ (n : AXNode) (path : List String)
      (acc : List SemanticQueryMatch × List String) (m : SemanticQueryMatch),
      m ∈ (searchNode p n path false acc).1 →
      m ∈ acc.1 ∨ ∃ a2 ∈ subnodes n path, generateSID a2.1 mainFrame a2.2 = S ∧
        ∃ dd ∈ subnodes a2.1 a2.2, m = mkMatch dd.1 dd.2 (scoreNode p dd.1).1
  | .mk ro nm d v a cs, path, acc, m => by
    intro hm
    simp only [searchNode, hp, scopeInclude_some S hts, Bool.false_or] at hm
    by_cases hS : (generateSID (AXNode.mk ro nm d v a cs) mainFrame path == S) = true
    · have hSeq : generateSID (AXNode.mk ro nm d v a cs) mainFrame path = S := by
        simpa using hS
      simp only [hS] at hm
      rcases searchChildren_out_sub p cs path true 0 _ m hm with h | ⟨dd, hd1, hd2⟩
      · rcases pushMatch_fst_mem p _ path _ acc m h with h' | h'
        · exact Or.inl h'
        · exact Or.inr ⟨(AXNode.mk ro nm d v a cs, path), subnodes_self_mem _ _,
            hSeq, (AXNode.mk ro nm d v a cs, path), subnodes_self_mem _ _, h'⟩
      · refine Or.inr ⟨(AXNode.mk ro nm d v a cs, path), subnodes_self_mem _ _,
          hSeq, dd, ?_, hd2⟩
        simp only [subnodes]
        exact List.mem_cons_of_mem _ hd1
    · have hS' : (generateSID (AXNode.mk ro nm d v a cs) mainFrame path == S) = false := by
        simpa using hS
      simp only [hS', pushMatch_false] at hm
      rcases searchChildren_scoped_sub p S hp hts cs path 0 acc m hm with h | ⟨a2, ha1, ha2, hrest⟩
      · exact Or.inl h
      · refine Or.inr ⟨a2, ?_, ha2, hrest⟩
        simp only [subnodes]
        exact List.mem_cons_of_mem _ ha1

theorem searchChildren_scoped_sub (p : QueryParams) (S : String)
    (hp : p.within_sid = some S) (hts : truthy S = true) :
    ∀ (cs : List AXNode) (path : List String) (i : Nat)
      (acc : List SemanticQueryMatch × List String) (m : SemanticQueryMatch),
      m ∈ (searchChildren p cs path false i acc).1 →
      m ∈ acc.1 ∨ ∃ a2 ∈ subnodesL cs path i, generateSID a2.1 mainFrame a2.2 = S ∧
        ∃ dd ∈ subnodes a2.1 a2.2, m = mkMatch dd.1 dd.2 (scoreNode p dd.1).1
  | [], _, _, acc, m => by
    intro hm
    simp only [searchChildren] at hm
    exact Or.inl hm
  | c :: rest, path, i, acc, m => by
    intro hm
    simp only [searchChildren] at hm
    rcases searchChildren_scoped_sub p S hp hts rest path (i + 1) _ m hm with h | ⟨a2, ha1, ha2, hrest⟩
    · rcases searchNode_scoped_sub p S hp hts c _ acc m h with h' | ⟨a2, ha1, ha2, hrest⟩
      · exact Or.inl h'
      · refine Or.inr ⟨a2, ?_, ha2, hrest⟩
        simp only [subnodesL]
        exact List.mem_append_left _ ha1
    · refine Or.inr ⟨a2, ?_, ha2, hrest⟩
      simp only [subnodesL]
      exact List.mem_append_right _ ha1

end

/-! Returned results are drawn from the materialized lists. -/

theorem jsSlice_sub {α : Type} (l : List α) (a b : Option Int) :
    ∀ x ∈ jsSlice l a b, x ∈ l := by
  intro x hx
  simp only [jsSlice] at hx
  exact List.mem_of_mem_drop (List.mem_of_mem_take hx)

theorem snapshotResult_nodes_sub (p : SnapParams) (t : AXNode) :
    ∀ e ∈ (snapshotResult p t).nodes, e ∈ snapshotNodes p t := by
  intro e he
  simp only [snapshotResult] at he
  exact jsSlice_sub _ _ _ e he

theorem insertBy_mem {α : Type} (le : α → α → Bool) (x : α) :
    ∀ (l : List α) (m : α), m ∈ insertBy le x l → m = x ∨ m ∈ l
  | [], m => by simp [insertBy]
  | y :: ys, m => by
    intro h
    simp only [insertBy] at h
    split at h
    · exact List.mem_cons.mp h
    · rcases List.mem_cons.mp h with h' | h'
      · exact Or.inr (by simp [h'])
      · rcases insertBy_mem le x ys m h' with h'' | h''
        · exact Or.inl h''
        · exact Or.inr (List.mem_cons_of_mem _ h'')

theorem sortBy_mem {α : Type} (le : α → α → Bool) :
    ∀ (l : List α) (m : α), m ∈ sortBy le l → m ∈ l
  | [], m => by simp [sortBy]
  | x :: xs, m => by
    intro h
    simp only [sortBy] at h
    rcases insertBy_mem le x (sortBy le xs) m h with h' | h'
    · simp [h']
    · exact List.mem_cons_of_mem _ (sortBy_mem le xs m h')

theorem rankMatches_mem (r : RankBy) (ms : List SemanticQueryMatch)
    (m : SemanticQueryMatch) (h : m ∈ rankMatches r ms) : m ∈ ms := by
  cases r <;> exact sortBy_mem _ ms m h

theorem semQueryResult_elements_raw (p : QueryParams) (t : AXNode) :
    ∀ m ∈ (semQueryResult p t).elements, m ∈ (queryRaw p t).1 := by
  intro m hm
  simp only [semQueryResult] at hm
  split at hm
  · rename_i best tail hmul heq
    have hbest : m = best := by simpa using hm
    subst hbest
    have hmem : m ∈ (rankMatches p.rank_by (queryRaw p t).1).take p.max := by
      rw [heq]
      exact List.mem_cons_self _ _
    exact rankMatches_mem _ _ m (List.mem_of_mem_take hmem)
  · exact rankMatches_mem _ _ m (List.mem_of_mem_take hm)

/-! ## C1 — scope restriction: the claims -/

/-- **C1 (counterexample)**: on `valveTree` with `max_nodes = 1` and scope
`S` = the SID of node `f`, the scoped `sem_snapshot` output is *not* a subset
of the unscoped output — neither at the materialized-list level (the unscoped
traversal trips the `max_nodes * 5` valve before reaching `g`, the scoped one
does not) nor at the returned-page level (pagination).  This refutes the
subset half of the claim. -/
theorem c1_scope_not_monotone :
    ¬ (∀ e ∈ snapshotNodes valveSnapS valveTree,
        e ∈ snapshotNodes valveSnapU valveTree) ∧
    ¬ (∀ e ∈ (snapshotResult valveSnapS valveTree).nodes,
        e ∈ (snapshotResult valveSnapU valveTree).nodes) := by
  constructor <;> decide

/-- **C1 (amended)**: for every *non-empty* scope string `S` (an empty
`within_sid` is falsy in JS and disables scoping altogether, making the call
identical to an unscoped one — see `empty_scope_snapshot_unscoped`): scope
restriction is monotone at the level of the materialized node list / raw
match list — for `sem_snapshot` provided the tree has at most `max_nodes * 5`
nodes (so the truncation valve cannot fire; the counterexample shows it fails
otherwise, and pagination likewise breaks the subset property for the
returned page) and for `sem_query` unconditionally — and, unconditionally,
every node/match returned under scope `S` is the projection of a node in the
subtree of a node whose derived SID equals `S`. -/
theorem c1_scope_monotone_amended (t : AXNode) (S : String) (sc : Scope)
    (fields : List String) (maxN : Nat) (cur : Option String)
    (qr ql qt : Option String) (qa : Option (List (String × String)))
    (rb : RankBy) (mult : Bool) (mx : Nat) (ex : Bool)
    (hS : S ≠ "") :
    (treeSize t ≤ maxN * 5 →
      ∀ e ∈ snapshotNodes ⟨sc, some S, fields, maxN, cur⟩ t,
        e ∈ snapshotNodes ⟨sc, none, fields, maxN, cur⟩ t) ∧
    (∀ m ∈ (queryRaw ⟨qr, ql, qt, qa, some S, rb, mult, mx, ex⟩ t).1,
        m ∈ (queryRaw ⟨qr, ql, qt, qa, none, rb, mult, mx, ex⟩ t).1) ∧
    (∀ e ∈ (snapshotResult ⟨sc, some S, fields, maxN, cur⟩ t).nodes,
        ∃ a2 ∈ subnodes t [], generateSID a2.1 mainFrame a2.2 = S ∧
          ∃ dd ∈ subnodes a2.1 a2.2,
            e = projectNode ⟨sc, some S, fields, maxN, cur⟩ dd.1 dd.2) ∧
    (∀ m ∈ (semQueryResult ⟨qr, ql, qt, qa, some S, rb, mult, mx, ex⟩ t).elements,
        ∃ a2 ∈ subnodes t [], generateSID a2.1 mainFrame a2.2 = S ∧
          ∃ dd ∈ subnodes a2.1 a2.2,
            m = mkMatch dd.1 dd.2
              (scoreNode ⟨qr, ql, qt, qa, some S, rb, mult, mx, ex⟩ dd.1).1) := by
  have hts : truthy S = true := by simp [truthy, hS]
  refine ⟨?_, ?_, ?_, ?_⟩
  · intro hsize e he
    have hsub := processNode_scope_sublist
      ⟨sc, some S, fields, maxN, cur⟩ ⟨sc, none, fields, maxN, cur⟩
      rfl rfl rfl t [] false false [] [] (List.Sublist.refl [])
      (by simpa using hsize)
    exact hsub.subset he
  · intro m hm
    have hsc : scoreNode ⟨qr, ql, qt, qa, some S, rb, mult, mx, ex⟩ =
        scoreNode ⟨qr, ql, qt, qa, none, rb, mult, mx, ex⟩ :=
      funext fun n => scoreNode_congr _ _ rfl rfl rfl rfl n
    have hsub := searchNode_scope_sublist
      ⟨qr, ql, qt, qa, some S, rb, mult, mx, ex⟩
      ⟨qr, ql, qt, qa, none, rb, mult, mx, ex⟩
      hsc rfl t [] false false ([], []) ([], []) (List.Sublist.refl [])
    exact hsub.subset hm
  · intro e he
    have he2 := snapshotResult_nodes_sub ⟨sc, some S, fields, maxN, cur⟩ t e he
    rcases processNode_scoped_sub ⟨sc, some S, fields, maxN, cur⟩ S rfl hts t []
      [] e he2 with h | hfound
    · exact absurd h (List.not_mem_nil e)
    · exact hfound
  · intro m hm
    have hm2 := semQueryResult_elements_raw
      ⟨qr, ql, qt, qa, some S, rb, mult, mx, ex⟩ t m hm
    rcases searchNode_scoped_sub ⟨qr, ql, qt, qa, some S, rb, mult, mx, ex⟩ S
      rfl hts t [] ([], []) m hm2 with h | hfound
    · exact absurd h (List.not_mem_nil m)
    · exact hfound

/-- Witness for the amended C1 on the concrete four-node `smallTree`, scoped
to the SID of its node `b`. -/
theorem c1_scope_monotone_amended_witness :
    (∀ e ∈ snapshotNodes ⟨.document, some smallScopeSid, ["label"], 10, none⟩
        smallTree,
        e ∈ snapshotNodes ⟨.document, none, ["label"], 10, none⟩ smallTree) ∧
    (∀ m ∈ (queryRaw ⟨some "b", none, none, none, some smallScopeSid,
        .semantic_score, true, 10, false⟩ smallTree).1,
        m ∈ (queryRaw ⟨some "b", none, none, none, none, .semantic_score, true,
          10, false⟩ smallTree).1) ∧
    (∀ e ∈ (snapshotResult ⟨.document, some smallScopeSid, ["label"], 10, none⟩
        smallTree).nodes,
        ∃ a2 ∈ subnodes smallTree [],
          generateSID a2.1 mainFrame a2.2 = smallScopeSid ∧
          ∃ dd ∈ subnodes a2.1 a2.2,
            e = projectNode ⟨.document, some smallScopeSid, ["label"], 10, none⟩
              dd.1 dd.2) ∧
    (∀ m ∈ (semQueryResult ⟨some "b", none, none, none, some smallScopeSid,
        .semantic_score, true, 10, false⟩ smallTree).elements,
        ∃ a2 ∈ subnodes smallTree [],
          generateSID a2.1 mainFrame a2.2 = smallScopeSid ∧
          ∃ dd ∈ subnodes a2.1 a2.2,
            m = mkMatch dd.1 dd.2
              (scoreNode ⟨some "b", none, none, none, some smallScopeSid,
                .semantic_score, true, 10, false⟩ dd.1).1) := by
  have h := c1_scope_monotone_amended smallTree smallScopeSid .document
    ["label"] 10 none (some "b") none none none .semantic_score true 10 false
    (by decide)
  exact ⟨h.1 (by decide), h.2.1, h.2.2.1, h.2.2.2⟩

/-! An empty `within_sid` is falsy in JS, so it disables scoping: both calls
behave exactly like unscoped ones. -/

theorem empty_scope_snapshot_unscoped (sc : Scope) (fields : List String)
    (maxN : Nat) (cur : Option String) (t : AXNode) :
    snapshotResult ⟨sc, some "", fields, maxN, cur⟩ t =
      snapshotResult ⟨sc, none, fields, maxN, cur⟩ t := by
  simp only [snapshotResult]
  rw [snapshotNodes_congr ⟨sc, some "", fields, maxN, cur⟩
    ⟨sc, none, fields, maxN, cur⟩
    (fun sid ws => by rw [scopeInclude_falsy "" (by decide)]; rfl) rfl rfl t]

theorem pushMatch_congr (p q : QueryParams) (hsc : scoreNode p = scoreNode q)
    (he : p.explain = q.explain) (n : AXNode) (path : List String) (inc : Bool)
    (acc : List SemanticQueryMatch × List String) :
    pushMatch p n path inc acc = pushMatch q n path inc acc := by
  unfold pushMatch
  rw [hsc, he]

mutual

theorem searchNode_congr (p q : QueryParams) (hsc : scoreNode p = scoreNode q)
    (he : p.explain = q.explain)
    (hw : ∀ sid ws, scopeInclude p.within_sid sid ws
      = scopeInclude q.within_sid sid ws) :
    ∀ (n : AXNode) (path : List String) (ws : Bool)
      (acc : List SemanticQueryMatch × List String),
      searchNode p n path ws acc = searchNode q n path ws acc
  | .mk ro nm d v a cs, path, ws, acc => by
    simp only [searchNode, hw, pushMatch_congr p q hsc he]
    rw [searchChildren_congr p q hsc he hw cs]

theorem searchChildren_congr (p q : QueryParams)
    (hsc : scoreNode p = scoreNode q) (he : p.explain = q.explain)
    (hw : ∀ sid ws, scopeInclude p.within_sid sid ws
      = scopeInclude q.within_sid sid ws) :
    ∀ (cs : List AXNode) (path : List String) (sc : Bool) (i : Nat)
      (acc : List SemanticQueryMatch × List String),
      searchChildren p cs path sc i acc = searchChildren q cs path sc i acc
  | [], _, _, _, _ => rfl
  | c :: rest, path, sc, i, acc => by
    simp only [searchChildren]
    rw [searchNode_congr p q hsc he hw c, searchChildren_congr p q hsc he hw rest]

end

theorem empty_scope_query_unscoped (qr ql qt : Option String)
    (qa : Option (List (String × String))) (rb : RankBy) (mult : Bool)
    (mx : Nat) (ex : Bool) (t : AXNode) :
    semQueryResult ⟨qr, ql, qt, qa, some "", rb, mult, mx, ex⟩ t =
      semQueryResult ⟨qr, ql, qt, qa, none, rb, mult, mx, ex⟩ t := by
  simp only [semQueryResult, queryRaw]
  rw [searchNode_congr ⟨qr, ql, qt, qa, some "", rb, mult, mx, ex⟩
    ⟨qr, ql, qt, qa, none, rb, mult, mx, ex⟩
    (funext fun n => scoreNode_congr _ _ rfl rfl rfl rfl n) rfl
    (fun sid ws => by rw [scopeInclude_falsy "" (by decide)]; rfl) t [] false
    ([], [])]

/-! ## C3 — additive predicate scoring on the reference scenarios -/

/-- **C3**: on a single-node tree (role "button", name "Submit"),
`sem_query {role:"button"}` returns exactly one match with score 50 and
confidence 0.5, and `sem_query {role:"button", label:"Submit"}` returns
exactly one match with score 90 and confidence 0.9. -/
theorem c3_reference_scenario_scores :
    ((semQueryResult (queryDefaults (some "button") none) buttonTree).elements.map
        fun m => (m.role, m.label, m.score, m.confidence)) =
      [("button", "Submit", 50, Rat.divInt 1 2)] ∧
    ((semQueryResult (queryDefaults (some "button") (some "Submit"))
          buttonTree).elements.map
        fun m => (m.role, m.label, m.score, m.confidence)) =
      [("button", "Submit", 90, Rat.divInt 9 10)] := by
  constructor <;> decide

/-! ## C4 — malformed cursors are not treated as offset 0 -/

/-- **C4 (failing input)**: on a one-node tree, a non-numeric cursor `"abc"`
makes `parseInt` return NaN — the `catch` branch that would reset the offset
to 0 is dead code, since `parseInt` never throws — and NaN flowing through
`Math.min` and `slice` produces an *empty* page with a null cursor, while the
cursor-less call returns the node.  This refutes the claim that a malformed
cursor is treated as offset 0. -/
theorem c4_malformed_cursor_bug :
    snapshotResult ⟨.document, none, ["role", "label"], 5000, some "abc"⟩
        oneNodeTree = ⟨[], none⟩ ∧
    snapshotResult ⟨.document, none, ["role", "label"], 5000, none⟩ oneNodeTree =
      ⟨[⟨none, some "a", some "A", none, none, none⟩], none⟩ ∧
    snapshotResult ⟨.document, none, ["role", "label"], 5000, some "abc"⟩
        oneNodeTree ≠
      snapshotResult ⟨.document, none, ["role", "label"], 5000, none⟩
        oneNodeTree := by
  refine ⟨by decide, by decide, by decide⟩

/-! ## C5 — a null tree capture is an error, never an empty success -/

/-- **C5**: when the tree provider's capture returns null, both `sem_snapshot`
and `sem_query` fail with the tree-capture error and never produce a
successful (hence never an empty-list) result. -/
theorem c5_capture_null_is_error (ps : SnapParams) (pq : QueryParams) :
    semSnapshot none ps =
      .error "Failed to create semantic snapshot: Failed to capture accessibility tree" ∧
    semQuery none pq =
      .error "Failed to query semantic elements: Failed to capture accessibility tree for querying" ∧
    (∀ r, semSnapshot none ps ≠ .ok r) ∧ (∀ r, semQuery none pq ≠ .ok r) :=
  ⟨rfl, rfl, fun _ h => Except.noConfusion h, fun _ h => Except.noConfusion h⟩

/-! ## C6 — explanations are not aligned with the ranked match list -/

/-- **C6 (failing input)**: querying `twoButtonTree` with
`{role:"button", label:"Submit", multiple:true, explain:true}` returns the
matches ranked by descending score — "Submit" (90) before "Cancel" (50) —
but the explanation list stays in traversal order: index 0 carries
`"role=button"`, the reasons of the *Cancel* match, not the reasons
`"role=button,label≈Submit"` of the first returned match (computed here by
`scoreNode` on the Submit node).  This refutes index alignment. -/
theorem c6_explanations_misaligned :
    ((semQueryResult twoButtonQuery twoButtonTree).elements.map
        fun m => (m.label, m.score)) = [("Submit", 90), ("Cancel", 50)] ∧
    (semQueryResult twoButtonQuery twoButtonTree).explanations =
      some ["role=button", "role=button,label≈Submit"] ∧
    String.intercalate ","
        (scoreNode twoButtonQuery (.mk "button" "Submit" "" "" [] [])).2 =
      "role=button,label≈Submit" ∧
    ("role=button" : String) ≠ "role=button,label≈Submit" := by
  refine ⟨by decide, by decide, by decide, by decide⟩

/-! ## C7 — snippet length bound -/

/-- **C7 (counterexample)**: a node whose name has 60 characters gets a
`textSnippet` of 53 characters (50 kept characters plus `"..."`), refuting
the claimed 50-character bound. -/
theorem c7_snippet_longer_than_50 :
    extractTextSnippet (.mk "text" longName60 "" "" [] []) ≠ none ∧
    ((extractTextSnippet (.mk "text" longName60 "" "" [] [])).getD "").data.length
      = 53 ∧
    ¬ ((extractTextSnippet (.mk "text" longName60 "" "" [] [])).getD "").data.length
      ≤ 50 := by
  refine ⟨by decide, by decide, by decide⟩

/-- Length bound for the truncation branch structure of `extractTextSnippet`,
over an arbitrary selected text. -/
theorem snippet_core_le_53 (t s : String)
    (h : (if t = "" then none
          else if t.data.length > 50 then
            some (String.mk (t.data.take 50) ++ "...")
          else some t) = some s) : s.data.length ≤ 53 := by
  split at h
  · exact Option.noConfusion h
  · split at h
    · cases h
      have e : (String.mk (List.take 50 t.data) ++ "...").data
          = List.take 50 t.data ++ ['.', '.', '.'] := rfl
      have hl : (List.take 50 t.data).length ≤ 50 := by
        simp [List.length_take]
      rw [e, List.length_append]
      simp only [List.length_cons, List.length_nil]
      omega
    · cases h
      omega

/-- **C7 (amended)**: every produced `textSnippet` has at most 53 characters —
at most 50 characters of source text, with longer text truncated to its first
50 characters and marked by the appended three-character `"..."`. -/
theorem c7_snippet_le_53 (node : AXNode) (s : String)
    (h : extractTextSnippet node = some s) : s.data.length ≤ 53 := by
  unfold extractTextSnippet at h
  exact snippet_core_le_53 _ s h

/-- Witness for the amended C7 at a concrete node. -/
theorem c7_snippet_le_53_witness : ("A" : String).data.length ≤ 53 :=
  c7_snippet_le_53 (.mk "a" "A" "" "" [] []) "A" (by decide)

/-! ## C8 — bounds are a fabricated constant, not provider geometry -/

/-- **C8 (failing input)**: `getElementBounds` ignores its node entirely and
returns the constant placeholder `{x:0, y:0, width:100, height:20}`; every
projected node with `bounds` in its field list carries that constant.  The
input `SerializedAXNode` supplies no geometry at all, so the returned bounds
are fabricated by the engine, refuting pass-through of provider geometry. -/
theorem c8_bounds_constant_placeholder :
    (∀ node : AXNode, getElementBounds node = ⟨0, 0, 100, 20⟩) ∧
    ((snapshotResult ⟨.document, none, ["bounds"], 10, none⟩ oneNodeTree).nodes.map
        fun n => n.bounds) = [some ⟨0, 0, 100, 20⟩] := by
  refine ⟨fun _ => rfl, by decide⟩

end Sem
